import Mathlib

set_option maxHeartbeats 1000000
set_option linter.unusedVariables false

/-!
Shallow embedding of the funcnodes_core repository (files
`funcnodes_core/lib/lib.py`, `funcnodes_core/config.py`,
`funcnodes_core/testing.py`) and verification of the specification's
claims about it.

Python object identity is modelled by a natural-number `oid`; garbage
collection is modelled by an explicit liveness environment `GC` that says
which object ids are still alive.  A weak reference stores the object it
was created from and dereferences to `none` when the target is dead.
Python exceptions are modelled by the error type `PyErr` inside the
`Except` monad; distinct exception classes map to distinct constructors
(messages are not modelled).
-/

/-- A Python node class (`Type[Node]`): identified by its object identity
`oid` and carrying its `node_id` class attribute.  Class equality in
Python is object identity, which structural equality of this record
represents (two distinct classes have distinct `oid`s). -/
structure NodeCls where
  oid : Nat
  node_id : String
deriving DecidableEq, Repr

/-- The `Shelf` dataclass of lib/lib.py (validated form: all `nodes`
entries are node classes, which is what `check_shelf` guarantees for
every shelf stored in a library).  `oid` models Python object identity
(the target of `weakref.ref(shelf)`); it is ignored by `Shelf.__eq__`. -/
inductive PyShelf where
  | mk (oid : Nat) (name : String) (description : String)
       (nodes : List NodeCls) (subshelves : List PyShelf)
deriving Repr

/-- Accessor for the object identity of a `Shelf`. -/
def PyShelf.oid : PyShelf → Nat
  | .mk o _ _ _ _ => o

/-- Accessor for the `name` attribute of a `Shelf`. -/
def PyShelf.name : PyShelf → String
  | .mk _ n _ _ _ => n

/-- Accessor for the `description` attribute of a `Shelf`. -/
def PyShelf.description : PyShelf → String
  | .mk _ _ d _ _ => d

/-- Accessor for the `nodes` attribute of a `Shelf`. -/
def PyShelf.nodes : PyShelf → List NodeCls
  | .mk _ _ _ ns _ => ns

/-- Accessor for the `subshelves` attribute of a `Shelf`. -/
def PyShelf.subshelves : PyShelf → List PyShelf
  | .mk _ _ _ _ ss => ss

/-- Garbage-collection environment: which node-class object ids and
which `Shelf` object ids are still alive (hold at least one strong
reference somewhere). -/
structure GC where
  nodeAlive : Nat → Bool
  shelfAlive : Nat → Bool

/-- Dereference a weak reference to a node class (`ref(node)()`):
the target when it is alive, `None` when it has been collected. -/
def wderef (g : GC) (c : NodeCls) : Option NodeCls :=
  if g.nodeAlive c.oid then some c else none

/-- Python exceptions raised by the embedded code.  `nodeClassNotFound`
models `NodeClassNotFoundError`, which subclasses `ValueError`; a bare
`except ValueError` therefore catches both `valueError` and
`nodeClassNotFound`. -/
inductive PyErr where
  | valueError
  | typeError
  | attributeError
  | keyError
  | importError
  | shelfError
  | nodeClassNotFound
deriving DecidableEq, Repr

/-- The `_InnerShelf` dataclass of lib/lib.py: the library's runtime
representation of a shelf.  `nodes_ref` holds weak references to node
classes (each entry stores the class the reference was created from;
liveness is judged through a `GC` environment), `shelf` optionally holds
a weak reference to a `Shelf` object (again stored by value, judged
through `GC` via its `oid`). -/
inductive InnerShelf where
  | mk (nodes_ref : List NodeCls) (inner_subshelves : List InnerShelf)
       (name : String) (description : String) (shelf : Option PyShelf)
deriving Repr

/-- Accessor for the `nodes_ref` field of an `_InnerShelf`. -/
def InnerShelf.nodes_ref : InnerShelf → List NodeCls
  | .mk nr _ _ _ _ => nr

/-- Accessor for the `inner_subshelves` field of an `_InnerShelf`. -/
def InnerShelf.inner_subshelves : InnerShelf → List InnerShelf
  | .mk _ ss _ _ _ => ss

/-- Accessor for the `name` field of an `_InnerShelf`. -/
def InnerShelf.name : InnerShelf → String
  | .mk _ _ n _ _ => n

/-- Accessor for the `description` field of an `_InnerShelf`. -/
def InnerShelf.description : InnerShelf → String
  | .mk _ _ _ d _ => d

/-- Accessor for the `shelf` field of an `_InnerShelf`. -/
def InnerShelf.shelf : InnerShelf → Option PyShelf
  | .mk _ _ _ _ sh => sh

/-- The `Library` class of lib/lib.py (the `_dependencies` mapping plays
no role in any claim and is omitted). -/
structure Library where
  _shelves : List InnerShelf
deriving Repr

mutual
/-- Model of `Shelf.__eq__` (lib/lib.py lines 41-64): structural equality
on name, description, element-wise equality of the node lists and
element-wise (recursive) equality of the subshelf lists; object identity
(`oid`) plays no role. -/
def shelfEq : PyShelf → PyShelf → Bool
  | .mk _ n1 d1 ns1 ss1, .mk _ n2 d2 ns2 ss2 =>
    n1 == n2 && d1 == d2 && ns1.length == ns2.length
      && ss1.length == ss2.length && ns1 == ns2 && shelfListEq ss1 ss2
/-- Element-wise comparison of two subshelf lists by `Shelf.__eq__`
(false on length mismatch). -/
def shelfListEq : List PyShelf → List PyShelf → Bool
  | [], [] => true
  | a :: as, b :: bs => shelfEq a b && shelfListEq as bs
  | _, _ => false
end

/-- Decide whether a list of strings has no duplicates (used to state
name-uniqueness hypotheses). -/
def nodupStr : List String → Bool
  | [] => true
  | s :: rest => !(rest.contains s) && nodupStr rest

mutual
/-- Model of `_InnerShelf.to_shelf` (lib/lib.py lines 112-122) evaluated
under a GC environment `g`.  `_check_shelf` raises `ValueError` when the
stored `Shelf` weak reference is dead; a live reference is returned
directly; a shelf without a backing `Shelf` object constructs a fresh
`Shelf` from the live node references and recursively converted
subshelves (the fresh object's identity is irrelevant and set to 0). -/
def toShelf (g : GC) : InnerShelf → Except PyErr PyShelf
  | .mk nr subs n d sh =>
    match sh with
    | some s => if g.shelfAlive s.oid then .ok s else .error .valueError
    | none => do
      let vs ← toShelfList g subs
      .ok (.mk 0 n d (nr.filterMap (wderef g)) vs)
/-- `to_shelf` mapped over a list of inner shelves (the list
comprehensions in `_InnerShelf.subshelves` and `Library.shelves`). -/
def toShelfList (g : GC) : List InnerShelf → Except PyErr (List PyShelf)
  | [] => .ok []
  | i :: rest => do
    let v ← toShelf g i
    let vs ← toShelfList g rest
    .ok (v :: vs)
end

/-- Serialized form of a shelf (`SerializedShelf` in lib/lib.py).
`serialize_cls` lives in `funcnodes_core/node.py`, which is not under
src/.  Modelled from the spec: a serialized node class is abstracted to
the class identifier `node_id`, which is what identifies a node class in
the serialized output. -/
structure SerializedShelf where
  nodes : List String
  subshelves : List SerializedShelf
  name : String
  description : String
deriving Repr

mutual
/-- Model of `serialize_shelfe` (lib/lib.py lines 146-157): serialize the
shelf's nodes and recursively its subshelves. -/
def serializeShelfe : PyShelf → SerializedShelf
  | .mk _ n d ns ss =>
    ⟨ns.map (fun c => c.node_id), serializeShelfeList ss, n, d⟩
/-- `serialize_shelfe` mapped over a subshelf list. -/
def serializeShelfeList : List PyShelf → List SerializedShelf
  | [] => []
  | s :: rest => serializeShelfe s :: serializeShelfeList rest
end

/-- Model of `Library.full_serialize` (lib/lib.py lines 307-308): take
the `shelves` property (which calls `to_shelf` on every inner shelf) and
serialize each resulting shelf. -/
def fullSerialize (g : GC) (lib : Library) : Except PyErr (List SerializedShelf) := do
  let vs ← toShelfList g lib._shelves
  .ok (serializeShelfeList vs)

/-- Helper for `get_node_in_shelf`: first index and node with the given
id (the `enumerate` loop), counting from `i`. -/
def findNodeIdx : List NodeCls → String → Nat → Option (Nat × NodeCls)
  | [], _, _ => none
  | c :: rest, nid, i =>
    if c.node_id == nid then some (i, c) else findNodeIdx rest nid (i + 1)

/-- Model of `get_node_in_shelf` (lib/lib.py lines 160-167): the index
and node with the given id, or `NodeClassNotFoundError`. -/
def getNodeInShelf (s : PyShelf) (nid : String) : Except PyErr (Nat × NodeCls) :=
  match findNodeIdx s.nodes nid 0 with
  | some r => .ok r
  | none => .error .nodeClassNotFound

/-- Does the shelf's own node list contain a node with the given id
(the condition under which `get_node_in_shelf` succeeds)? -/
def containsId (s : PyShelf) (nid : String) : Bool :=
  s.nodes.any (fun c => c.node_id == nid)

mutual
/-- Model of `deep_find_node` (lib/lib.py lines 182-200).  If the shelf
itself holds the id, the path `[shelf.name]` is recorded and returned at
once when `all` is false.  The subshelf loop calls `deep_find_node`
recursively with its default `all=True`, prepends the parent name to
every returned path and, when `all` is false, breaks after the first
subshelf with results. -/
def deepFindNode (s : PyShelf) (nid : String) (all : Bool) : List (List String) :=
  match s with
  | .mk _ n _ _ subs =>
    if containsId s nid ∧ all = false then [[n]]
    else
      (if containsId s nid then [[n]] else []) ++ deepFindSubs n subs nid all
/-- The subshelf loop of `deep_find_node` (prepend the parent name,
break after the first hit when `all` is false; the recursive call uses
the default `all=True`). -/
def deepFindSubs (pname : String) (subs : List PyShelf) (nid : String)
    (all : Bool) : List (List String) :=
  match subs with
  | [] => []
  | t :: rest =>
    let ps := deepFindNode t nid true
    if ps.length > 0 then
      let ps := ps.map (fun p => pname :: p)
      if all then ps ++ deepFindSubs pname rest nid all else ps
    else deepFindSubs pname rest nid all
end

/-- The shelf loop of `Library.find_nodeid` (lib/lib.py lines 348-356):
collect `deep_find_node` paths over the shelf snapshot, breaking after
the first shelf with results when `all` is false. -/
def findLoop : List PyShelf → String → Bool → List (List String)
  | [], _, _ => []
  | s :: rest, nid, all =>
    let ps := deepFindNode s nid all
    if ps.length > 0 then
      if all then ps ++ findLoop rest nid all else ps
    else findLoop rest nid all

/-- Model of `Library.find_nodeid`: take the `shelves` snapshot (each
inner shelf through `to_shelf`) and run the search loop over it. -/
def findNodeid (g : GC) (lib : Library) (nid : String) (all : Bool) :
    Except PyErr (List (List String)) := do
  let vs ← toShelfList g lib._shelves
  .ok (findLoop vs nid all)

/-- Model of `Library.has_node_id` (lib/lib.py lines 358-359). -/
def hasNodeId (g : GC) (lib : Library) (nid : String) : Except PyErr Bool := do
  let ps ← findNodeid g lib nid false
  .ok (ps.length > 0)

/-- The path-walking loop of `Library.get_shelf_from_path` (lib/lib.py
lines 331-346) on the inner representation: follow the first
name match at each level through `inner_subshelves`; a missing segment
or an empty path raises `ValueError`. -/
def walkPath : List InnerShelf → List String → Except PyErr InnerShelf
  | _, [] => .error .valueError
  | shelves, [seg] =>
    match shelves.find? (fun i => i.name == seg) with
    | some i => .ok i
    | none => .error .valueError
  | shelves, seg :: rest =>
    match shelves.find? (fun i => i.name == seg) with
    | some i => walkPath i.inner_subshelves rest
    | none => .error .valueError

/-- Model of `Library.get_shelf_from_path`: walk the path on the inner
shelves and convert the final shelf with `to_shelf`. -/
def getShelfFromPath (g : GC) (lib : Library) (path : List String) :
    Except PyErr PyShelf := do
  let i ← walkPath lib._shelves path
  toShelf g i

/-- Model of `Library.get_node_by_id` (lib/lib.py lines 376-384):
`find_nodeid` with `all=False`; raise `NodeClassNotFoundError` on an
empty result; otherwise resolve the first path with
`get_shelf_from_path` and return the node found by `get_node_in_shelf`. -/
def getNodeById (g : GC) (lib : Library) (nid : String) : Except PyErr NodeCls := do
  let paths ← findNodeid g lib nid false
  match paths with
  | [] => .error .nodeClassNotFound
  | p :: _ => do
    let s ← getShelfFromPath g lib p
    let r ← getNodeInShelf s nid
    .ok r.2

mutual
/-- Model of `flatten_shelf` (lib/lib.py lines 203-210): all nodes of the
shelf tree in depth-first order (own nodes first, then the subshelves in
order) together with all shelves of the tree in the same preorder. -/
def flattenShelf : PyShelf → List NodeCls × List PyShelf
  | .mk o n d ns ss =>
    let sub := flattenShelfList ss
    (ns ++ sub.1, .mk o n d ns ss :: sub.2)
/-- The subshelf loop of `flatten_shelf` extended over a list. -/
def flattenShelfList : List PyShelf → List NodeCls × List PyShelf
  | [] => ([], [])
  | s :: rest =>
    let a := flattenShelf s
    let b := flattenShelfList rest
    (a.1 ++ b.1, a.2 ++ b.2)
end

/-- Model of `flatten_shelves` (lib/lib.py lines 213-220). -/
def flattenShelves (shelves : List PyShelf) : List NodeCls × List PyShelf :=
  flattenShelfList shelves

/-- A value appearing in the `nodes` list of an unvalidated shelf
definition: a node class, some other class (not a `Node` subclass), or a
non-class object (on which `issubclass` raises `TypeError`). -/
inductive RawNode where
  | node (c : NodeCls)
  | otherClass (s : String)
  | nonClass (s : String)
deriving DecidableEq, Repr

/-- An unvalidated `Shelf` instance: like `PyShelf` but its `nodes` list
may hold arbitrary objects (`Shelf.from_dict` copies the `nodes` entry of
a dict into the dataclass without checking it). -/
inductive RawShelf where
  | mk (oid : Nat) (name : String) (description : String)
       (nodes : List RawNode) (subshelves : List RawShelf)
deriving Repr

mutual
/-- A dict argument for `Shelf.from_dict` / `check_shelf`: each of the
four shelf properties may be absent. -/
inductive RawDict where
  | mk (name : Option String) (description : Option String)
       (nodes : Option (List RawNode)) (subshelves : Option (List RawEntry))
/-- An argument that may be either a dict or a `Shelf` instance (both
`Shelf.from_dict` and `Library.add_shelf` accept either). -/
inductive RawEntry where
  | dictE (v : RawDict)
  | shelfE (v : RawShelf)
end

mutual
/-- Model of `Shelf.from_dict` (lib/lib.py lines 25-39): a `Shelf`
instance is returned unchanged; a dict without `"name"` raises
`ShelfError("name must be present")`; otherwise a fresh `Shelf` is built,
recursing into the `subshelves` entries (missing keys default to `[]`
and `""`). -/
def fromDict : RawEntry → Except PyErr RawShelf
  | .shelfE v => .ok v
  | .dictE (.mk none _ _ _) => .error .shelfError
  | .dictE (.mk (some n) d ns none) =>
    .ok (.mk 0 n (d.getD "") (ns.getD []) [])
  | .dictE (.mk (some n) d ns (some subs)) => do
    let ss ← fromDictList subs
    .ok (.mk 0 n (d.getD "") (ns.getD []) ss)
/-- The `subshelves` list comprehension of `Shelf.from_dict`. -/
def fromDictList : List RawEntry → Except PyErr (List RawShelf)
  | [] => .ok []
  | e :: rest => do
    let s ← fromDict e
    let ss ← fromDictList rest
    .ok (s :: ss)
end

/-- One step of the node check in `check_shelf` (lib/lib.py lines
237-239): `issubclass(node, Node)` raises `TypeError` when the entry is
not a class at all; a class that is not a `Node` subclass raises
`ValueError`. -/
def checkNode : RawNode → Except PyErr NodeCls
  | .node c => .ok c
  | .otherClass _ => .error .valueError
  | .nonClass _ => .error .typeError

/-- The node-checking loop of `check_shelf`. -/
def checkNodes : List RawNode → Except PyErr (List NodeCls)
  | [] => .ok []
  | r :: rest => do
    let c ← checkNode r
    let cs ← checkNodes rest
    .ok (c :: cs)

mutual
/-- The body of `check_shelf` (lib/lib.py lines 223-242) applied to a
`Shelf` instance: check every node entry, recursively check the
subshelves, and return the (value-wise unchanged, now validated) shelf. -/
def checkShelfR : RawShelf → Except PyErr PyShelf
  | .mk o n d ns ss => do
    let cs ← checkNodes ns
    let vs ← checkShelfRList ss
    .ok (.mk o n d cs vs)
/-- The subshelf list comprehension of `check_shelf`. -/
def checkShelfRList : List RawShelf → Except PyErr (List PyShelf)
  | [] => .ok []
  | s :: rest => do
    let v ← checkShelfR s
    let vs ← checkShelfRList rest
    .ok (v :: vs)
end

/-- Model of `check_shelf` (lib/lib.py lines 223-242).  A dict argument
first has its four top-level properties filled with defaults (`"Unnamed
Shelf"`, `""`, `[]`, `[]`) and is then run through `Shelf.from_dict`;
the resulting shelf (or a directly supplied `Shelf` instance) has its
nodes and subshelves validated. -/
def checkShelf : RawEntry → Except PyErr PyShelf
  | .dictE (.mk n d ns subs) => do
    let filled : RawEntry :=
      .dictE (.mk (some (n.getD "Unnamed Shelf")) (some (d.getD ""))
        (some (ns.getD [])) (some (subs.getD [])))
    let rs ← fromDict filled
    checkShelfR rs
  | .shelfE v => checkShelfR v

mutual
/-- Model of `_InnerShelf.from_shelf` (lib/lib.py lines 93-105): weak
references to every node, recursively converted subshelves, and a weak
reference to the `Shelf` object itself. -/
def fromShelf : PyShelf → InnerShelf
  | .mk o n d ns ss => .mk ns (fromShelfList ss) n d (some (.mk o n d ns ss))
/-- `_InnerShelf.from_shelf` mapped over a subshelf list. -/
def fromShelfList : List PyShelf → List InnerShelf
  | [] => []
  | s :: rest => fromShelf s :: fromShelfList rest
end

/-- Name lookup in the dict comprehension `{s.name: s for s in
self._shelves}` of `Library.add_shelf`: with duplicate names the last
entry wins. -/
def lookupLast : List InnerShelf → String → Option InnerShelf
  | [], _ => none
  | i :: rest, n =>
    match lookupLast rest n with
    | some r => some r
    | none => if i.name == n then some i else none

/-- Model of `Library.add_shelf` (lib/lib.py lines 263-270).  The input
is validated by `check_shelf`; if an inner shelf of the same name exists
and its `to_shelf()` is not structurally equal to the new shelf, the
`raise ValueError(f"... {shelf['name']} ...")` line is reached — but
subscripting the `Shelf` dataclass in the f-string raises `TypeError`
first, so `TypeError` is what escapes.  In every other case (same name
and structurally equal included) a new `_InnerShelf` is appended. -/
def addShelf (g : GC) (lib : Library) (arg : RawEntry) :
    Except PyErr (Library × PyShelf) := do
  let shelf ← checkShelf arg
  match lookupLast lib._shelves shelf.name with
  | some inner => do
    let v ← toShelf g inner
    if shelfEq v shelf then .ok (⟨lib._shelves ++ [fromShelf shelf]⟩, shelf)
    else .error .typeError
  | none => .ok (⟨lib._shelves ++ [fromShelf shelf]⟩, shelf)

/-- Replace the `nodes` attribute of a `Shelf` object (the effect of
mutating the live list `self.shelf().nodes`). -/
def setShelfNodes : PyShelf → List NodeCls → PyShelf
  | .mk o n d _ ss, ns => .mk o n d ns ss

/-- Replace the `inner_subshelves` field of an `_InnerShelf`. -/
def setInnerSubs : InnerShelf → List InnerShelf → InnerShelf
  | .mk nr _ n d sh, subs => .mk nr subs n d sh

/-- One iteration of `update_nodes_in_shelf` (lib/lib.py lines 170-179)
with an `_InnerShelf` receiver, as called from `Library.add_nodes`.
`get_node_in_shelf` reads the `nodes` property: for a shelf without a
backing `Shelf` object this is a freshly built list of the live weak
references, so the found-branch assignment `shelf.nodes[i] = node`
mutates only that temporary list and the stored state is unchanged; the
not-found branch appends a weak reference.  For a shelf backed by a live
`Shelf` object the property returns the object's real list, so the
assignment and the append both take effect on it; a dead backing
reference makes the property raise (`None.nodes` is an
`AttributeError`). -/
def updateInnerOne (g : GC) (i : InnerShelf) (n : NodeCls) :
    Except PyErr InnerShelf :=
  match i with
  | .mk nr subs nm d sh =>
    match sh with
    | none =>
      if (nr.filterMap (wderef g)).any (fun c => c.node_id == n.node_id)
      then .ok (.mk nr subs nm d none)
      else .ok (.mk (nr ++ [n]) subs nm d none)
    | some s =>
      if g.shelfAlive s.oid then
        match findNodeIdx s.nodes n.node_id 0 with
        | some r => .ok (.mk nr subs nm d (some (setShelfNodes s (s.nodes.set r.1 n))))
        | none => .ok (.mk nr subs nm d (some (setShelfNodes s (s.nodes ++ [n]))))
      else .error .attributeError

/-- The node loop of `update_nodes_in_shelf` over an `_InnerShelf`. -/
def updateNodesInShelf (g : GC) : InnerShelf → List NodeCls → Except PyErr InnerShelf
  | i, [] => .ok i
  | i, n :: rest => do
    let j ← updateInnerOne g i n
    updateNodesInShelf g j rest

mutual
/-- Model of `Library._add_shelf_recursively` (lib/lib.py lines 280-299)
combined with the final `update_nodes_in_shelf` call of
`Library.add_nodes`: walk the path, descending into the first inner
shelf whose `name` matches the segment, appending a fresh empty
`_InnerShelf` at the end of the current level when no name matches, and
apply the node update at the end of the path. -/
def addNodesPath (g : GC) (nodes : List NodeCls) :
    List String → List InnerShelf → Except PyErr (List InnerShelf)
  | [], shelves => .ok shelves
  | seg :: rest, [] => do
    let fresh ← applyAtShelf g nodes rest (.mk [] [] seg "" none)
    .ok [fresh]
  | seg :: rest, i :: shelves =>
    if i.name == seg then do
      let j ← applyAtShelf g nodes rest i
      .ok (j :: shelves)
    else do
      let r ← addNodesPath g nodes (seg :: rest) shelves
      .ok (i :: r)
termination_by p ss => (p.length, ss.length + 1)
/-- Apply the remaining path inside one located (or freshly created)
inner shelf: an exhausted path means this is the target, which receives
the node update; otherwise descend into `inner_subshelves`. -/
def applyAtShelf (g : GC) (nodes : List NodeCls) :
    List String → InnerShelf → Except PyErr InnerShelf
  | [], i => updateNodesInShelf g i nodes
  | seg :: rest, i => do
    let subs ← addNodesPath g nodes (seg :: rest) i.inner_subshelves
    .ok (setInnerSubs i subs)
termination_by p _ => (p.length + 1, 0)
end

/-- Model of `Library.add_nodes` (lib/lib.py lines 313-326) with the
path already in list form (a plain string argument is wrapped into a
one-element list by the source): an empty path raises `ValueError`,
otherwise `_add_shelf_recursively` locates or creates the target shelf
and `update_nodes_in_shelf` applies the nodes to it. -/
def addNodes (g : GC) (lib : Library) (nodes : List NodeCls)
    (shelf : List String) : Except PyErr Library := do
  if shelf.isEmpty then .error .valueError
  else do
    let ss ← addNodesPath g nodes shelf lib._shelves
    .ok ⟨ss⟩

mutual
/-- An inner shelf (tree) holds no weak `Shelf` reference anywhere:
the shape produced by `Library.add_nodes` when it creates shelves. -/
def noneBackedT : InnerShelf → Bool
  | .mk _ subs _ _ sh => sh.isNone && noneBackedL subs
/-- `noneBackedT` over a list of inner shelves. -/
def noneBackedL : List InnerShelf → Bool
  | [] => true
  | i :: rest => noneBackedT i && noneBackedL rest
end

mutual
/-- All node ids of a serialized shelf tree in depth-first order. -/
def serIdsT : SerializedShelf → List String
  | ⟨ns, ss, _, _⟩ => ns ++ serIdsL ss
/-- `serIdsT` over a list of serialized shelves. -/
def serIdsL : List SerializedShelf → List String
  | [] => []
  | s :: rest => serIdsT s ++ serIdsL rest
end

mutual
/-- The node ids of the still-live weak node references of an inner
shelf tree, in depth-first order (ignores any backing `Shelf`). -/
def liveIdsT (g : GC) : InnerShelf → List String
  | .mk nr subs _ _ _ =>
    (nr.filterMap (wderef g)).map (fun c => c.node_id) ++ liveIdsL g subs
/-- `liveIdsT` over a list of inner shelves. -/
def liveIdsL (g : GC) : List InnerShelf → List String
  | [] => []
  | i :: rest => liveIdsT g i ++ liveIdsL g rest
end

/-- A JSON value, the shape of configuration data handled by
`config.py`. -/
inductive JVal where
  | str (s : String)
  | num (n : Int)
  | boolean (b : Bool)
  | null
  | arr (elems : List JVal)
  | obj (fields : List (String × JVal))
deriving Repr

/-- First-binding lookup in a JSON object's field list. -/
def lookupJ : List (String × JVal) → String → Option JVal
  | [], _ => none
  | (k, v) :: rest, key => if k == key then some v else lookupJ rest key

/-- Replace the (first) binding of a key in a JSON object's field list;
the key is expected to be present. -/
def setKeyJ : List (String × JVal) → String → JVal → List (String × JVal)
  | [], _, _ => []
  | (k, v) :: rest, key, nv =>
    if k == key then (k, nv) :: rest else (k, v) :: setKeyJ rest key nv

mutual
/-- Modelled from the spec: `deep_fill_dict` lives in
`funcnodes_core/utils/data.py`, which is not under src/.  The spec
describes it as the default-merge policy: every key of the defaults that
is missing from the target is copied in, and keys whose values are both
dicts are merged recursively; existing non-dict values are kept. -/
def deepFill : JVal → JVal → JVal
  | .obj tf, .obj sf => .obj (deepFillFields tf sf)
  | t, _ => t
/-- The per-key loop of `deep_fill_dict` over the default's fields. -/
def deepFillFields (tf : List (String × JVal)) :
    List (String × JVal) → List (String × JVal)
  | [] => tf
  | (k, v) :: rest =>
    let tf2 :=
      match lookupJ tf k with
      | none => tf ++ [(k, v)]
      | some tv =>
        match tv with
        | .obj _ => setKeyJ tf k (deepFill tv v)
        | _ => tf
    deepFillFields tf2 rest
end

/-- The `DEFAULT_CONFIG` dict of config.py, parameterized by the value
of `BASE_CONFIG_DIR` (which depends on the environment). -/
def defaultConfig (base : String) : JVal :=
  .obj [("env_dir", .str (base ++ "/env")),
        ("worker_manager", .obj [("host", .str "localhost"), ("port", .num 9380)]),
        ("frontend", .obj [("port", .num 8000), ("host", .str "localhost")])]

/-- A file system for the configuration code: a map from paths to the
JSON value stored there.  A path that is absent models both a missing
file and an unreadable or unparseable one (`json.load` failing for any
reason). -/
abbrev FSys : Type := List (String × JVal)

/-- Read and parse a configuration file (`open` + `json.load`):
`none` when that fails for any reason. -/
def readFS (fs : FSys) (p : String) : Option JVal := lookupJ fs p

/-- Write a file (`write_json_secure`, from
`funcnodes_core/utils/files.py`, which is not under src/; modelled from
the spec as an atomic replacement of the file's content). -/
def writeFS (fs : FSys) (p : String) (v : JVal) : FSys :=
  match lookupJ fs p with
  | some _ => setKeyJ fs p v
  | none => fs ++ [(p, v)]

/-- Model of `_bupath` (config.py lines 55-70): the backup path
`path + ".bu"` (`with_suffix(path.suffix + ".bu")` keeps the original
suffix and appends `.bu`). -/
def bupath (p : String) : String := p ++ ".bu"

/-- Model of `write_config` (config.py lines 73-89): write the
configuration to the given path and to its backup path. -/
def writeConfig (fs : FSys) (p : String) (cfg : JVal) : FSys :=
  writeFS (writeFS fs p cfg) (bupath p) cfg

/-- Model of `load_config` (config.py lines 92-126), parameterized by
the `DEFAULT_CONFIG` base directory: try to parse the file at `path`,
fall back to the `.bu` backup, fall back to `DEFAULT_CONFIG`; deep-fill
the result with the defaults, write it back through `write_config`, and
store it as the global `CONFIG` (the second component of the result). -/
def loadConfig (base : String) (fs : FSys) (path : String) : FSys × JVal :=
  let cfg :=
    match readFS fs path with
    | some c => c
    | none =>
      match readFS fs (bupath path) with
      | some c => c
      | none => defaultConfig base
  let cfg := deepFill cfg (defaultConfig base)
  (writeConfig fs path cfg, cfg)

/-- The attribute names exposed by the module `funcnodes_core.config`
after it has executed: its top-level imports and definitions
(config.py lines 1-283), plus `IN_NODE_TEST`, which survives the
`del IN_NODE_TEST` statement as a property on the module's replacement
class `This`.  No `get_in_test` attribute is ever defined. -/
def configModuleAttrs : List String :=
  ["Optional", "TypedDict", "Path", "os", "json", "deep_fill_dict",
   "RenderOptions", "write_json_secure", "load_dotenv", "type_to_string",
   "tempfile", "shutil", "sys", "BASE_CONFIG_DIR", "WorkerManagerConfig",
   "FrontendConfig", "ConfigType", "DEFAULT_CONFIG", "CONFIG", "CONFIG_DIR",
   "_bupath", "write_config", "load_config", "check_config_dir",
   "FUNCNODES_RENDER_OPTIONS", "update_render_options", "reload", "This",
   "set_in_test", "IN_NODE_TEST", "_IN_NODE_TEST"]

/-- Model of a `from funcnodes_core.config import ...` statement: it
succeeds exactly when every requested name is an attribute of the
module, and raises `ImportError` otherwise. -/
def fromConfigImport (names : List String) : Except PyErr Unit :=
  if names.all (fun n => configModuleAttrs.contains n) then .ok ()
  else .error .importError

/-- The import statement executed when `funcnodes_core.testing` is
loaded (testing.py line 7): `from .config import set_in_test,
get_in_test`.  Importing the module fails if this raises. -/
def importTesting : Except PyErr Unit :=
  fromConfigImport ["set_in_test", "get_in_test"]

/-- A Python dict key (or value) as handled by `update_render_options`:
either a string or a non-string object such as a type (on which the
code calls `type_to_string`). -/
inductive PyKey where
  | strK (s : String)
  | typeK (tag : String)
deriving DecidableEq, Repr

/-- Is this key a string (`isinstance(k, str)`)? -/
def PyKey.isStr : PyKey → Bool
  | .strK _ => true
  | .typeK _ => false

/-- An ordered Python dict with `PyKey` keys and values. -/
abbrev PyDict : Type := List (PyKey × PyKey)

/-- The keys of a dict. -/
def dictKeys (d : PyDict) : List PyKey := d.map (fun kv => kv.1)

/-- Dict item assignment `d[k] = v`: replace the first binding of `k`,
or append a new binding at the end. -/
def dSet (d : PyDict) (k : PyKey) (v : PyKey) : PyDict :=
  match d with
  | [] => [(k, v)]
  | (k1, v1) :: rest =>
    if k1 == k then (k1, v) :: rest else (k1, v1) :: dSet rest k v

/-- Dict deletion `del d[k]`: remove the binding of `k`, raising
`KeyError` when the key is absent. -/
def dDel (d : PyDict) (k : PyKey) : Except PyErr PyDict :=
  match d with
  | [] => .error .keyError
  | (k1, v1) :: rest =>
    if k1 == k then .ok rest
    else do
      let r ← dDel rest k
      .ok ((k1, v1) :: r)

/-- The `RenderOptions` argument of `update_render_options`: the
`typemap` and `inputconverter` entries may each be absent. -/
structure ROpts where
  typemap : Option PyDict
  inputconverter : Option PyDict
deriving Repr

/-- The global `FUNCNODES_RENDER_OPTIONS` dict (both entries always
present, initialised to `{}`). -/
structure RGlobal where
  typemap : PyDict
  inputconverter : PyDict
deriving Repr

/-- The `typemap` loop of `update_render_options` (config.py lines
173-181), iterating over the snapshot `list(options["typemap"].items())`
while mutating the dict `d`: a non-string key is deleted and re-inserted
under `type_to_string(k)`; a non-string value is re-inserted as
`type_to_string(v)` under the (possibly coerced) key. -/
def typemapLoop (t2s : PyKey → String) :
    List (PyKey × PyKey) → PyDict → Except PyErr PyDict
  | [], d => .ok d
  | (k, v) :: rest, d => do
    let (d1, k1) ←
      if k.isStr then pure (d, k)
      else do
        let dd ← dDel d k
        let ks := PyKey.strK (t2s k)
        pure (dSet dd ks v, ks)
    let d2 := if v.isStr then d1 else dSet d1 k1 (.strK (t2s v))
    typemapLoop t2s rest d2

/-- The `inputconverter` loop of `update_render_options` (config.py
lines 185-193).  Note the source's non-string-key branch deletes the key
from `options["typemap"]` (not from `options["inputconverter"]`); the
loop also mirrors every processed pair into the global
`FUNCNODES_RENDER_OPTIONS["inputconverter"]`. -/
def inputconverterLoop (t2s : PyKey → String) :
    List (PyKey × PyKey) → PyDict → PyDict → PyDict →
    Except PyErr (PyDict × PyDict × PyDict)
  | [], tm, ic, fnic => .ok (tm, ic, fnic)
  | (k, v) :: rest, tm, ic, fnic => do
    let (tm1, ic1, k1) ←
      if k.isStr then pure (tm, ic, k)
      else do
        let tmd ← dDel tm k
        let ks := PyKey.strK (t2s k)
        pure (tmd, dSet ic ks v, ks)
    let (ic2, v2) :=
      if v.isStr then (ic1, v) else (dSet ic1 k1 (.strK (t2s v)), PyKey.strK (t2s v))
    inputconverterLoop t2s rest tm1 (ic2) (dSet fnic k1 v2)

/-- Modelled from the spec: the final
`deep_fill_dict(FUNCNODES_RENDER_OPTIONS, options, merge_lists=True,
unfify_lists=True)` call (the helper is not under src/): fill keys of
the global mapping that are missing from it with the options' entries. -/
def fillRenderGlobal (fn : RGlobal) (tm ic : PyDict) : RGlobal :=
  ⟨fn.typemap ++ tm.filter (fun kv => !(dictKeys fn.typemap).contains kv.1),
   fn.inputconverter ++ ic.filter (fun kv => !(dictKeys fn.inputconverter).contains kv.1)⟩

/-- Model of `update_render_options` (config.py lines 156-202) on a dict
argument, parameterized by the external `type_to_string` function and
acting on the global `FUNCNODES_RENDER_OPTIONS` state `fn`.  Missing
`typemap` / `inputconverter` entries are created empty; the `typemap`
loop coerces its keys and values; the `inputconverter` loop runs with
the source's buggy `del options["typemap"][k]` line; all values here are
JSON-serializable so the final `json.dumps` guard never fails, and the
global mapping is deep-filled from the options. -/
def updateRenderOptions (t2s : PyKey → String) (fn : RGlobal) (o : ROpts) :
    Except PyErr (ROpts × RGlobal) := do
  let tm0 := o.typemap.getD []
  let tm1 ← typemapLoop t2s tm0 tm0
  let ic0 := o.inputconverter.getD []
  let (tm2, ic1, fnic) ← inputconverterLoop t2s ic0 tm1 ic0 fn.inputconverter
  let fn1 : RGlobal := ⟨fn.typemap, fnic⟩
  .ok (⟨some tm2, some ic1⟩, fillRenderGlobal fn1 tm2 ic1)

mutual
/-- Inject a validated shelf back into the unvalidated argument type
(every `PyShelf` is in particular a legal `Shelf` instance argument for
`check_shelf`). -/
def rawOfPy : PyShelf → RawShelf
  | .mk o n d ns ss => .mk o n d (ns.map (fun c => .node c)) (rawOfPyList ss)
/-- `rawOfPy` over a subshelf list. -/
def rawOfPyList : List PyShelf → List RawShelf
  | [] => []
  | s :: rest => rawOfPy s :: rawOfPyList rest
end

mutual
/-- Does `Shelf.from_dict` fail on this argument, i.e. does it contain
(at any depth reached through dict entries) a dict lacking `"name"`?
`Shelf` instances are returned by `from_dict` unchanged. -/
def badEntry : RawEntry → Bool
  | .shelfE _ => false
  | .dictE (.mk none _ _ _) => true
  | .dictE (.mk (some _) _ _ none) => false
  | .dictE (.mk (some _) _ _ (some subs)) => badEntryList subs
/-- `badEntry` over a list of subshelf entries. -/
def badEntryList : List RawEntry → Bool
  | [] => false
  | e :: rest => badEntry e || badEntryList rest
end

/-- Does `check_shelf` reach a `ShelfError` on this `add_shelf` argument?
The top level of a dict argument has its `"name"` defaulted before
`from_dict` runs, so only its subshelf entries can be bad. -/
def argBadSub : RawEntry → Bool
  | .shelfE _ => false
  | .dictE (.mk _ _ _ none) => false
  | .dictE (.mk _ _ _ (some subs)) => badEntryList subs

mutual
/-- The pure value of `to_shelf` on an inner shelf that has no backing
`Shelf` reference anywhere (`noneBackedT`): the live node references and
the recursively converted subshelves. -/
def viewT (g : GC) : InnerShelf → PyShelf
  | .mk nr subs n d _ => .mk 0 n d (nr.filterMap (wderef g)) (viewL g subs)
/-- `viewT` over a list of inner shelves. -/
def viewL (g : GC) : List InnerShelf → List PyShelf
  | [] => []
  | i :: rest => viewT g i :: viewL g rest
end

/-- The pure analogue of `get_shelf_from_path`'s walk on shelf values:
follow the first name match at each level, `none` on a missing segment
or an empty path. -/
def walkV : List PyShelf → List String → Option PyShelf
  | _, [] => none
  | vs, [seg] => vs.find? (fun s => s.name == seg)
  | vs, seg :: rest =>
    match vs.find? (fun s => s.name == seg) with
    | some s => walkV s.subshelves rest
    | none => none

/-- The specification-side meaning of a path for `find_nodeid`: the
path, read from a top-level shelf downwards, follows a chain of nested
shelves by name and ends at a shelf whose own node list contains a node
with the given id. -/
def pathOccursF (nid : String) : List PyShelf → List String → Prop
  | _, [] => False
  | vs, [a] => ∃ s ∈ vs, s.name = a ∧ containsId s nid = true
  | vs, a :: rest => ∃ s ∈ vs, s.name = a ∧ pathOccursF nid s.subshelves rest

mutual
/-- Sibling shelf names are duplicate-free at every level inside the
tree. -/
def nodupNamesT : PyShelf → Bool
  | .mk _ _ _ _ ss => nodupStr (ss.map PyShelf.name) && nodupNamesL ss
/-- `nodupNamesT` over a list of shelves. -/
def nodupNamesL : List PyShelf → Bool
  | [] => true
  | s :: rest => nodupNamesT s && nodupNamesL rest
end

/-- Duplicate-free keys of a Python dict (an invariant of every real
`dict`, used as a hypothesis when a dict is modelled by a raw
association list). -/
def nodupKeysD : PyDict → Bool
  | [] => true
  | (k, _) :: rest => !((dictKeys rest).contains k) && nodupKeysD rest

/-- Induction statement for the C3 analysis of `get_node_by_id` over a
shelf forest: under duplicate-free sibling names, an empty
`find_nodeid(all=False)` loop result means the id is absent from the
flattened node list, and a nonempty result's head path walks (by first
name match) to a shelf whose first matching node is the global
depth-first first match. -/
def c3Stmt (nid : String) (vs : List PyShelf) : Prop :=
  nodupStr (vs.map PyShelf.name) = true →
  nodupNamesL vs = true →
  ((findLoop vs nid false = [] →
    (flattenShelfList vs).1.find? (fun c => c.node_id == nid) = none) ∧
   (∀ p tail, findLoop vs nid false = p :: tail →
    ∃ u j c, walkV vs p = some u ∧
      getNodeInShelf u nid = Except.ok (j, c) ∧
      (flattenShelfList vs).1.find? (fun c2 => c2.node_id == nid) = some c))

/-- Strong induction over `PyShelf`: prove a property of a shelf from
the property of all its subshelves. -/
theorem pyShelfStrongInd (P : PyShelf → Prop)
    (h : ∀ o n d ns ss, (∀ s, s ∈ ss → P s) → P (.mk o n d ns ss)) :
    ∀ s, P s := fun s =>
  match s with
  | .mk o n d ns ss => h o n d ns ss (fun t ht => pyShelfStrongInd P h t)
termination_by s => sizeOf s
decreasing_by
  have h2 := List.sizeOf_lt_of_mem ht
  simp only [PyShelf.mk.sizeOf_spec]
  omega

/-- Strong induction over `InnerShelf`: prove a property of an inner
shelf from the property of all its inner subshelves. -/
theorem innerShelfStrongInd (P : InnerShelf → Prop)
    (h : ∀ nr subs n d sh, (∀ t, t ∈ subs → P t) → P (.mk nr subs n d sh)) :
    ∀ i, P i := fun i =>
  match i with
  | .mk nr subs n d sh => h nr subs n d sh (fun t ht => innerShelfStrongInd P h t)
termination_by i => sizeOf i
decreasing_by
  have h2 := List.sizeOf_lt_of_mem ht
  simp only [InnerShelf.mk.sizeOf_spec]
  omega

/-- Element-wise characterization of `shelfListEq`. -/
theorem shelfListEq_iff : ∀ l1 l2 : List PyShelf,
    shelfListEq l1 l2 = true ↔
      (l1.length = l2.length ∧
       ∀ i (h1 : i < l1.length) (h2 : i < l2.length),
         shelfEq (l1.get ⟨i, h1⟩) (l2.get ⟨i, h2⟩) = true)
  | [], [] => by simp [shelfListEq]
  | [], _ :: _ => by simp [shelfListEq]
  | _ :: _, [] => by simp [shelfListEq]
  | a :: as, b :: bs => by
    rw [shelfListEq]
    rw [Bool.and_eq_true]
    rw [shelfListEq_iff as bs]
    constructor
    · rintro ⟨hab, hlen, hget⟩
      refine ⟨by simpa using hlen, ?_⟩
      intro i h1 h2
      match i with
      | 0 => simpa using hab
      | j + 1 =>
        simpa using hget j (by simpa using h1) (by simpa using h2)
    · rintro ⟨hlen, hget⟩
      refine ⟨by simpa using hget 0 (by simp) (by simp), by simpa using hlen, ?_⟩
      intro j hj1 hj2
      simpa using hget (j + 1) (by simpa using hj1) (by simpa using hj2)

/-- C7.  Shelf equality is element-wise and order-sensitive: two `Shelf`
values are equal exactly when their names and descriptions agree, their
node lists have equal length and equal entries at every index, and their
subshelf lists have equal length and (recursively `Shelf.__eq__`-equal)
entries at every index; in particular, two shelves holding the same two
distinct node classes in opposite order are unequal. -/
theorem c7_theorem :
    (∀ a b : PyShelf,
      shelfEq a b = true ↔
        (a.name = b.name ∧ a.description = b.description ∧
         a.nodes.length = b.nodes.length ∧
         (∀ i (h1 : i < a.nodes.length) (h2 : i < b.nodes.length),
           a.nodes.get ⟨i, h1⟩ = b.nodes.get ⟨i, h2⟩) ∧
         a.subshelves.length = b.subshelves.length ∧
         (∀ i (h1 : i < a.subshelves.length) (h2 : i < b.subshelves.length),
           shelfEq (a.subshelves.get ⟨i, h1⟩) (b.subshelves.get ⟨i, h2⟩) = true))) ∧
    (∀ (o1 o2 : Nat) (nm ds : String) (n1 n2 : NodeCls), n1 ≠ n2 →
      shelfEq (.mk o1 nm ds [n1, n2] []) (.mk o2 nm ds [n2, n1] []) = false) := by
  constructor
  · intro a b
    obtain ⟨o1, n1, d1, ns1, ss1⟩ := a
    obtain ⟨o2, n2, d2, ns2, ss2⟩ := b
    rw [shelfEq]
    simp only [Bool.and_eq_true, beq_iff_eq, PyShelf.name, PyShelf.description,
      PyShelf.nodes, PyShelf.subshelves, shelfListEq_iff, List.ext_get_iff]
    constructor
    · rintro ⟨⟨⟨⟨⟨hn, hd⟩, hnl⟩, hsl⟩, hnn, hng⟩, _, hsg⟩
      exact ⟨hn, hd, hnn, hng, hsl, hsg⟩
    · rintro ⟨hn, hd, hnn, hng, hsl, hsg⟩
      exact ⟨⟨⟨⟨⟨hn, hd⟩, hnn⟩, hsl⟩, hnn, hng⟩, hsl, hsg⟩
  · intro o1 o2 nm ds n1 n2 hne
    rw [shelfEq]
    simp [hne]

/-- Witness for C7 at a concrete pair of shelves: the same two distinct
node classes in opposite order give unequal shelves. -/
theorem c7_witness :
    shelfEq (.mk 0 "s" "" [⟨0, "a"⟩, ⟨1, "a"⟩] [])
      (.mk 0 "s" "" [⟨1, "a"⟩, ⟨0, "a"⟩] []) = false :=
  c7_theorem.2 0 0 "s" "" ⟨0, "a"⟩ ⟨1, "a"⟩ (by decide)

/-- C9.  Importing `funcnodes_core.testing` always fails with
`ImportError`: testing.py line 7 imports `get_in_test` from
`funcnodes_core.config`, but the config module exposes `set_in_test` and
the `IN_NODE_TEST` module property without ever defining a `get_in_test`
attribute. -/
theorem c9_theorem :
    importTesting = .error .importError ∧
    "set_in_test" ∈ configModuleAttrs ∧
    "get_in_test" ∉ configModuleAttrs ∧
    "IN_NODE_TEST" ∈ configModuleAttrs :=
  ⟨rfl, by decide, by decide, by decide⟩

/-- C4, code-bug evaluation at the failing input.  Claim: `add_nodes`
update-or-appends by `node_id`, so adding node 2 (same `node_id` "x")
after node 1 should replace it.  The code instead leaves node 1 in
place: the target shelf created by `add_nodes` has no backing `Shelf`
object, so `update_nodes_in_shelf`'s assignment `shelf.nodes[i] = node`
writes into the temporary list built by the `_InnerShelf.nodes` property
and is lost. -/
theorem c4_theorem :
    (do
      let l1 ← addNodes ⟨fun _ => true, fun _ => true⟩ ⟨[]⟩ [⟨1, "x"⟩] ["A"]
      addNodes ⟨fun _ => true, fun _ => true⟩ l1 [⟨2, "x"⟩] ["A"]) =
    Except.ok ⟨[.mk [⟨1, "x"⟩] [] "A" "" none]⟩ := by
  simp [addNodes, addNodesPath, applyAtShelf, updateNodesInShelf,
    updateInnerOne, wderef, Bind.bind, Except.bind, InnerShelf.name]

/-- Counterexample to C1.  Register a shelf holding class `C` through
`add_shelf` (so the library keeps only a weak reference to the `Shelf`
object), then drop every strong external reference to `C` — which, since
the `Shelf` object strongly references `C` in its `nodes` list, requires
the `Shelf` object itself to be collected as well.  `full_serialize`
then raises `ValueError("Shelf reference is lost")` instead of
completing with `C` skipped. -/
theorem c1_counterexample :
    fullSerialize ⟨fun _ => false, fun _ => false⟩
      ⟨[fromShelf (.mk 10 "main" "" [⟨1, "c"⟩] [])]⟩ =
    .error .valueError := rfl

/-- Counterexample to C2.  A library already holds the shelf named "A";
adding a structurally equal shelf again does not leave the collection
unchanged: `add_shelf` appends a second `_InnerShelf`, so the shelf list
grows from one entry to two. -/
theorem c2_counterexample :
    (addShelf ⟨fun _ => true, fun _ => true⟩
        ⟨[fromShelf (.mk 10 "A" "" [] [])]⟩
        (.shelfE (.mk 10 "A" "" [] []))).map
      (fun r => r.1._shelves.length) = .ok 2 := rfl

/-- Counterexample to C3.  With two top-level shelves both named "A"
(such duplicates are exactly what `add_shelf` creates for structurally
equal shelves, and `remove_nodeclass` then pops nodes from the first
one only), where only the second holds the node with id "x",
`get_node_by_id "x"` raises `NodeClassNotFoundError` even though the
library does contain a node class with that id (`has_node_id` is true):
`find_nodeid` locates the path through the second shelf, but
`get_shelf_from_path` resolves the name "A" to the first, which lacks
the node. -/
theorem c3_counterexample :
    getNodeById ⟨fun _ => true, fun _ => true⟩
        ⟨[fromShelf (.mk 10 "A" "" [] []), fromShelf (.mk 11 "A" "" [⟨1, "x"⟩] [])]⟩
        "x" = .error .nodeClassNotFound ∧
    hasNodeId ⟨fun _ => true, fun _ => true⟩
        ⟨[fromShelf (.mk 10 "A" "" [] []), fromShelf (.mk 11 "A" "" [⟨1, "x"⟩] [])]⟩
        "x" = .ok true := ⟨rfl, rfl⟩

/-- Counterexample to C6.  A shelf dict whose `nodes` entry holds a
class that is not a `Node` subclass fails registration with `ValueError`
(not `ShelfError`), and a shelf dict lacking every required property is
accepted outright: `check_shelf` fills the missing name with
"Unnamed Shelf" instead of raising. -/
theorem c6_counterexample :
    addShelf ⟨fun _ => true, fun _ => true⟩ ⟨[]⟩
        (.dictE (.mk (some "A") none (some [.otherClass "Foo"]) none)) =
      .error .valueError ∧
    addShelf ⟨fun _ => true, fun _ => true⟩ ⟨[]⟩
        (.dictE (.mk none none none none)) =
      .ok (⟨[fromShelf (.mk 0 "Unnamed Shelf" "" [] [])]⟩,
           .mk 0 "Unnamed Shelf" "" [] []) := ⟨rfl, rfl⟩

/-- On a list all of whose members convert purely (in particular a
none-backed list), `to_shelf` over the list yields the pure views. -/
theorem toShelfList_of_forall (g : GC) : ∀ ss : List InnerShelf,
    (∀ t ∈ ss, noneBackedT t = true → toShelf g t = .ok (viewT g t)) →
    noneBackedL ss = true → toShelfList g ss = .ok (viewL g ss) := by
  intro ss
  induction ss with
  | nil => intro _ _; rfl
  | cons i rest ih =>
    intro hall hnb
    rw [noneBackedL, Bool.and_eq_true] at hnb
    rw [toShelfList, hall i (by simp) hnb.1, ih (fun t ht => hall t (by simp [ht])) hnb.2]
    rfl

/-- Members of a none-backed list are none-backed trees. -/
theorem noneBackedT_of_mem : ∀ ss : List InnerShelf,
    noneBackedL ss = true → ∀ t ∈ ss, noneBackedT t = true := by
  intro ss
  induction ss with
  | nil => intro _ t ht; simp at ht
  | cons a rest ih =>
    intro hs t ht
    rw [noneBackedL, Bool.and_eq_true] at hs
    rcases List.mem_cons.mp ht with h | h
    · exact h ▸ hs.1
    · exact ih hs.2 t h

/-- On a none-backed inner shelf, `to_shelf` never raises and returns
the pure view. -/
theorem toShelf_nb (g : GC) : ∀ i, noneBackedT i = true →
    toShelf g i = .ok (viewT g i) := by
  refine innerShelfStrongInd _ ?_
  intro nr subs n d sh ih hnb
  rw [noneBackedT, Bool.and_eq_true] at hnb
  obtain ⟨hsh, hsubs⟩ := hnb
  have : sh = none := by
    cases sh with
    | none => rfl
    | some s => simp [Option.isNone] at hsh
  subst this
  rw [toShelf,
    toShelfList_of_forall g subs
      (fun t ht _ => ih t ht (noneBackedT_of_mem subs hsubs t ht)) hsubs]
  rfl

/-- On a none-backed list of inner shelves, the `shelves` snapshot never
raises and returns the pure views. -/
theorem toShelfList_nb (g : GC) (ss : List InnerShelf)
    (h : noneBackedL ss = true) : toShelfList g ss = .ok (viewL g ss) :=
  toShelfList_of_forall g ss (fun t _ => toShelf_nb g t) h

/-- List step for `serIds_viewT`. -/
theorem serIdsL_viewL (g : GC) : ∀ ss : List InnerShelf,
    (∀ t ∈ ss, serIdsT (serializeShelfe (viewT g t)) = liveIdsT g t) →
    serIdsL (serializeShelfeList (viewL g ss)) = liveIdsL g ss := by
  intro ss
  induction ss with
  | nil => intro _; rfl
  | cons i rest ih =>
    intro hall
    rw [viewL, serializeShelfeList, serIdsL, liveIdsL,
      hall i (by simp), ih (fun t ht => hall t (by simp [ht]))]

/-- The ids in the serialization of an inner shelf's pure view are
exactly the ids of its live weak node references, in order. -/
theorem serIds_viewT (g : GC) : ∀ i,
    serIdsT (serializeShelfe (viewT g i)) = liveIdsT g i := by
  refine innerShelfStrongInd _ ?_
  intro nr subs n d sh ih
  rw [viewT, serializeShelfe, serIdsT, liveIdsT, serIdsL_viewL g subs ih]

/-- C1, amended.  For every library whose runtime representation holds
no backing `Shelf` reference (the shape `add_nodes` creates), and every
GC state, `full_serialize` completes without exception and the node ids
appearing in its output are exactly the ids of the still-live weak node
references: dead slots are skipped. -/
theorem c1_theorem : ∀ (g : GC) (lib : Library),
    noneBackedL lib._shelves = true →
    ∃ out, fullSerialize g lib = .ok out ∧
      serIdsL out = liveIdsL g lib._shelves := by
  intro g lib h
  refine ⟨serializeShelfeList (viewL g lib._shelves), ?_, ?_⟩
  · rw [fullSerialize]
    rw [toShelfList_nb g _ h]
    rfl
  · exact serIdsL_viewL g _ (fun t _ => serIds_viewT g t)

/-- Witness for C1 at a concrete library: one none-backed shelf holding
weak references to classes 1 ("a") and 2 ("b"); class 2 is dead, and the
serialized output lists exactly ["a"]. -/
theorem c1_witness :
    (∃ out, fullSerialize ⟨fun n => n == 1, fun _ => false⟩
        ⟨[.mk [⟨1, "a"⟩, ⟨2, "b"⟩] [] "A" "" none]⟩ = .ok out ∧
      serIdsL out =
        liveIdsL ⟨fun n => n == 1, fun _ => false⟩
          [.mk [⟨1, "a"⟩, ⟨2, "b"⟩] [] "A" "" none]) ∧
    liveIdsL ⟨fun n => n == 1, fun _ => false⟩
      [.mk [⟨1, "a"⟩, ⟨2, "b"⟩] [] "A" "" none] = ["a"] :=
  ⟨c1_theorem ⟨fun n => n == 1, fun _ => false⟩
      ⟨[.mk [⟨1, "a"⟩, ⟨2, "b"⟩] [] "A" "" none]⟩ rfl, rfl⟩

/-- The node-check loop succeeds identically on a list of genuine node
classes. -/
theorem checkNodes_map : ∀ ns : List NodeCls,
    checkNodes (ns.map (fun c => .node c)) = .ok ns := by
  intro ns
  induction ns with
  | nil => rfl
  | cons c rest ih => rw [List.map_cons, checkNodes, checkNode, ih]; rfl

/-- List step for `checkShelfR_rawOfPy`. -/
theorem checkShelfRList_rawOfPyList : ∀ ss : List PyShelf,
    (∀ t ∈ ss, checkShelfR (rawOfPy t) = .ok t) →
    checkShelfRList (rawOfPyList ss) = .ok ss := by
  intro ss
  induction ss with
  | nil => intro _; rfl
  | cons s rest ih =>
    intro hall
    rw [rawOfPyList, checkShelfRList, hall s (by simp),
      ih (fun t ht => hall t (by simp [ht]))]
    rfl

/-- `check_shelf` on an already valid `Shelf` instance validates it and
returns it (value-wise) unchanged. -/
theorem checkShelfR_rawOfPy : ∀ s : PyShelf,
    checkShelfR (rawOfPy s) = .ok s := by
  refine pyShelfStrongInd _ ?_
  intro o n d ns ss ih
  rw [rawOfPy, checkShelfR, checkNodes_map, checkShelfRList_rawOfPyList ss ih]
  rfl

/-- C2, amended.  Let a library hold an inner shelf under the name of
`S` (the last such inner shelf, which is the one the dict comprehension
of `add_shelf` retains) and let its `to_shelf()` be `V`.  If `V` is
structurally equal to `S`, then `add_shelf(S)` raises nothing but
appends a fresh `_InnerShelf` for `S` — the collection is not left
unchanged, so `add_shelf` is not idempotent.  If `V` is not structurally
equal to `S`, `add_shelf(S)` raises an error (a `TypeError`: the error
message's `shelf['name']` subscripts the `Shelf` dataclass before the
intended `ValueError` is constructed). -/
theorem c2_theorem : ∀ (g : GC) (lib : Library) (S : PyShelf)
    (inner : InnerShelf) (V : PyShelf),
    lookupLast lib._shelves S.name = some inner →
    toShelf g inner = .ok V →
    (shelfEq V S = true →
      addShelf g lib (.shelfE (rawOfPy S)) =
        .ok (⟨lib._shelves ++ [fromShelf S]⟩, S)) ∧
    (shelfEq V S = false →
      addShelf g lib (.shelfE (rawOfPy S)) = .error .typeError) := by
  intro g lib S inner V hlook htos
  constructor
  · intro heq
    rw [addShelf, checkShelf, checkShelfR_rawOfPy]
    simp only [Bind.bind, Except.bind, hlook, htos, heq]
    rfl
  · intro hne
    rw [addShelf, checkShelf, checkShelfR_rawOfPy]
    simp only [Bind.bind, Except.bind, hlook, htos, hne]
    rfl

/-- Witness for C2 at a concrete library: adding the structurally equal
shelf "A" again appends a duplicate entry. -/
theorem c2_witness :
    addShelf ⟨fun _ => true, fun _ => true⟩
        ⟨[fromShelf (.mk 10 "A" "" [] [])]⟩
        (.shelfE (rawOfPy (.mk 10 "A" "" [] []))) =
      .ok (⟨[fromShelf (.mk 10 "A" "" [] []), fromShelf (.mk 10 "A" "" [] [])]⟩,
           .mk 10 "A" "" [] []) :=
  (c2_theorem ⟨fun _ => true, fun _ => true⟩
    ⟨[fromShelf (.mk 10 "A" "" [] [])]⟩ (.mk 10 "A" "" [] [])
    (fromShelf (.mk 10 "A" "" [] [])) (.mk 10 "A" "" [] []) rfl rfl).1 rfl

/-- Strong induction over `RawShelf`. -/
theorem rawShelfStrongInd (P : RawShelf → Prop)
    (h : ∀ o n d ns ss, (∀ s, s ∈ ss → P s) → P (.mk o n d ns ss)) :
    ∀ s, P s := fun s =>
  match s with
  | .mk o n d ns ss => h o n d ns ss (fun t ht => rawShelfStrongInd P h t)
termination_by s => sizeOf s
decreasing_by
  have h2 := List.sizeOf_lt_of_mem ht
  simp only [RawShelf.mk.sizeOf_spec]
  omega

mutual
/-- `Shelf.from_dict` raises `ShelfError` exactly when the argument
contains (through dict entries) a dict lacking `"name"`, and
`ShelfError` is the only exception it can raise. -/
theorem fromDict_spec : ∀ e : RawEntry,
    (fromDict e = .error .shelfError ↔ badEntry e = true) ∧
    (∀ err, fromDict e = .error err → err = .shelfError)
  | .shelfE v => by simp [fromDict, badEntry]
  | .dictE (.mk none d ns ss) => by simp [fromDict, badEntry]
  | .dictE (.mk (some n) d ns none) => by simp [fromDict, badEntry]
  | .dictE (.mk (some n) d ns (some subs)) => by
    obtain ⟨hiff, herr⟩ := fromDictList_spec subs
    simp only [fromDict, badEntry, Bind.bind, Except.bind]
    cases hfdl : fromDictList subs with
    | ok ss =>
      rw [hfdl] at hiff
      constructor
      · constructor
        · intro h; exact absurd h (by simp)
        · intro hbad; exact absurd (hiff.mpr hbad) (by simp)
      · intro err h; exact absurd h (by simp)
    | error err0 =>
      have he : err0 = .shelfError := herr err0 hfdl
      subst he
      rw [hfdl] at hiff
      constructor
      · simpa using hiff
      · intro err h
        simp only [] at h
        cases h
        rfl
/-- List version of `fromDict_spec` for the subshelf comprehension. -/
theorem fromDictList_spec : ∀ l : List RawEntry,
    (fromDictList l = .error .shelfError ↔ badEntryList l = true) ∧
    (∀ err, fromDictList l = .error err → err = .shelfError)
  | [] => by simp [fromDictList, badEntryList]
  | e :: rest => by
    obtain ⟨hiffe, herre⟩ := fromDict_spec e
    obtain ⟨hiffl, herrl⟩ := fromDictList_spec rest
    simp only [fromDictList, badEntryList, Bind.bind, Except.bind]
    cases hfd : fromDict e with
    | ok s =>
      rw [hfd] at hiffe
      have hbe : badEntry e = false := by
        cases hb : badEntry e with
        | false => rfl
        | true => exact absurd (hiffe.mpr hb) (by simp)
      cases hfdl : fromDictList rest with
      | ok ss =>
        rw [hfdl] at hiffl
        have hbl : badEntryList rest = false := by
          cases hb : badEntryList rest with
          | false => rfl
          | true => exact absurd (hiffl.mpr hb) (by simp)
        constructor
        · simp [hbe, hbl]
        · intro err h; exact absurd h (by simp)
      | error err0 =>
        have he : err0 = .shelfError := herrl err0 hfdl
        subst he
        rw [hfdl] at hiffl
        constructor
        · simp [hbe, hiffl.mp rfl]
        · intro err h; cases h; rfl
    | error err0 =>
      have he : err0 = .shelfError := herre err0 hfd
      subst he
      rw [hfd] at hiffe
      constructor
      · simp [hiffe.mp rfl]
      · intro err h; cases h; rfl
end

/-- The node-checking loop of `check_shelf` never raises `ShelfError`
(its errors are `TypeError` from `issubclass` on a non-class and
`ValueError` for a class that is not a `Node` subclass). -/
theorem checkNodes_ne : ∀ rs : List RawNode,
    checkNodes rs ≠ .error .shelfError := by
  intro rs
  induction rs with
  | nil => simp [checkNodes]
  | cons r rest ih =>
    cases r with
    | node c =>
      simp only [checkNodes, checkNode, Bind.bind, Except.bind]
      cases hrest : checkNodes rest with
      | ok cs => simp
      | error e =>
        rw [hrest] at ih
        simpa using ih
    | otherClass s => simp [checkNodes, checkNode, Bind.bind, Except.bind]
    | nonClass s => simp [checkNodes, checkNode, Bind.bind, Except.bind]

/-- List step for `checkShelfR_ne`. -/
theorem checkShelfRList_ne_of : ∀ ss : List RawShelf,
    (∀ t ∈ ss, checkShelfR t ≠ .error .shelfError) →
    checkShelfRList ss ≠ .error .shelfError := by
  intro ss
  induction ss with
  | nil => intro _; simp [checkShelfRList]
  | cons s rest ih =>
    intro hall
    simp only [checkShelfRList, Bind.bind, Except.bind]
    cases hs : checkShelfR s with
    | error e =>
      have := hall s (by simp)
      rw [hs] at this
      simpa using this
    | ok v =>
      cases hrest : checkShelfRList rest with
      | ok vs => simp
      | error e =>
        have := ih (fun t ht => hall t (by simp [ht]))
        rw [hrest] at this
        simpa using this

/-- The shelf-validating body of `check_shelf` never raises
`ShelfError`. -/
theorem checkShelfR_ne : ∀ rs : RawShelf,
    checkShelfR rs ≠ .error .shelfError := by
  refine rawShelfStrongInd _ ?_
  intro o n d ns ss ih
  simp only [checkShelfR, Bind.bind, Except.bind]
  cases hn : checkNodes ns with
  | error e =>
    have := checkNodes_ne ns
    rw [hn] at this
    simpa using this
  | ok cs =>
    cases hss : checkShelfRList ss with
    | ok vs => simp
    | error e =>
      have := checkShelfRList_ne_of ss ih
      rw [hss] at this
      simpa using this

/-- List step for `toShelf_ne`. -/
theorem toShelfList_ne_of (g : GC) : ∀ ss : List InnerShelf,
    (∀ t ∈ ss, toShelf g t ≠ .error .shelfError) →
    toShelfList g ss ≠ .error .shelfError := by
  intro ss
  induction ss with
  | nil => intro _; simp [toShelfList]
  | cons i rest ih =>
    intro hall
    simp only [toShelfList, Bind.bind, Except.bind]
    cases hi : toShelf g i with
    | error e =>
      have := hall i (by simp)
      rw [hi] at this
      simpa using this
    | ok v =>
      cases hrest : toShelfList g rest with
      | ok vs => simp
      | error e =>
        have := ih (fun t ht => hall t (by simp [ht]))
        rw [hrest] at this
        simpa using this

/-- `to_shelf` can raise only `ValueError` (for a lost `Shelf`
reference), never `ShelfError`. -/
theorem toShelf_ne (g : GC) : ∀ i : InnerShelf,
    toShelf g i ≠ .error .shelfError := by
  refine innerShelfStrongInd _ ?_
  intro nr subs n d sh ih
  cases sh with
  | some s =>
    simp only [toShelf]
    by_cases hgs : g.shelfAlive s.oid
    · simp [hgs]
    · simp [hgs]
  | none =>
    simp only [toShelf, Bind.bind, Except.bind]
    cases hsubs : toShelfList g subs with
    | ok vs => simp
    | error e =>
      have := toShelfList_ne_of g subs ih
      rw [hsubs] at this
      simpa using this

/-- `check_shelf` (as called by `add_shelf`) raises `ShelfError` exactly
when the argument has a bad subshelf dict. -/
theorem checkShelf_iff : ∀ arg : RawEntry,
    checkShelf arg = .error .shelfError ↔ argBadSub arg = true := by
  intro arg
  cases arg with
  | shelfE v => simp [checkShelf, argBadSub, checkShelfR_ne v]
  | dictE dv =>
    obtain ⟨n, d, ns, subsOpt⟩ := dv
    obtain ⟨hiff, herr⟩ := fromDictList_spec (subsOpt.getD [])
    simp only [checkShelf, fromDict, Bind.bind, Except.bind]
    cases hfdl : fromDictList (subsOpt.getD []) with
    | ok ss =>
      rw [hfdl] at hiff
      have hbl : badEntryList (subsOpt.getD []) = false := by
        cases hb : badEntryList (subsOpt.getD []) with
        | false => rfl
        | true => exact absurd (hiff.mpr hb) (by simp)
      constructor
      · intro h
        exact absurd h (checkShelfR_ne _)
      · intro hbad
        exfalso
        cases subsOpt with
        | none => simp [argBadSub] at hbad
        | some subs =>
          rw [argBadSub] at hbad
          rw [Option.getD] at hbl
          simp [hbad] at hbl
    | error err0 =>
      have he : err0 = .shelfError := herr err0 hfdl
      subst he
      rw [hfdl] at hiff
      constructor
      · intro _
        cases subsOpt with
        | none => simpa using hiff.mp rfl
        | some subs =>
          rw [argBadSub]
          simpa using hiff.mp rfl
      · intro _; rfl

/-- C6, amended.  Registering a shelf definition raises `ShelfError` at
registration time exactly when the definition contains, among its
subshelf dict entries at any depth, a dict lacking `"name"`.  Missing
top-level properties are silently defaulted, node entries that are not
classes raise `TypeError`, and classes that are not `Node` subclasses
raise `ValueError` (see `c6_counterexample`). -/
theorem c6_theorem : ∀ (g : GC) (lib : Library) (arg : RawEntry),
    addShelf g lib arg = .error .shelfError ↔ argBadSub arg = true := by
  intro g lib arg
  have hcs := checkShelf_iff arg
  simp only [addShelf, Bind.bind, Except.bind]
  cases hc : checkShelf arg with
  | error e =>
    rw [hc] at hcs
    simpa using hcs
  | ok shelf =>
    rw [hc] at hcs
    have hbadf : argBadSub arg = false := by
      cases hb : argBadSub arg with
      | false => rfl
      | true => exact absurd (hcs.mpr hb) (by simp)
    rw [hbadf]
    simp only [addShelf, Bind.bind, Except.bind, hc]
    cases hl : lookupLast lib._shelves shelf.name with
    | none => simp
    | some inner =>
      cases ht : toShelf g inner with
      | error e =>
        simp only [ht]
        constructor
        · intro hh
          have he : e = PyErr.shelfError := by
            cases hh
            rfl
          exact absurd (he ▸ ht) (toShelf_ne g inner)
        · intro hh; simp at hh
      | ok v =>
        by_cases hv : shelfEq v shelf = true
        · simp [ht, hv]
        · simp [ht, hv]

/-- Updating a present key makes it readable with the new value. -/
theorem lookupJ_setKeyJ_self : ∀ (fs : FSys) (p : String) (v : JVal),
    lookupJ fs p ≠ none → lookupJ (setKeyJ fs p v) p = some v := by
  intro fs p v h
  induction fs with
  | nil => simp [lookupJ] at h
  | cons kv rest ih =>
    obtain ⟨k, w⟩ := kv
    rw [setKeyJ]
    by_cases hk : k = p
    · subst hk
      rw [if_pos (by simp)]
      simp [lookupJ]
    · rw [if_neg (by simp [hk])]
      rw [lookupJ, if_neg (by simp [hk])]
      rw [lookupJ, if_neg (by simp [hk])] at h
      exact ih h

/-- Updating one key leaves other keys unchanged. -/
theorem lookupJ_setKeyJ_ne : ∀ (fs : FSys) (p q : String) (v : JVal),
    q ≠ p → lookupJ (setKeyJ fs p v) q = lookupJ fs q := by
  intro fs p q v hne
  induction fs with
  | nil => rfl
  | cons kv rest ih =>
    obtain ⟨k, w⟩ := kv
    rw [setKeyJ]
    by_cases hk : k = p
    · subst hk
      rw [if_pos (by simp)]
      rw [lookupJ, lookupJ, if_neg (by simp [Ne.symm hne]), if_neg (by simp [Ne.symm hne])]
    · rw [if_neg (by simp [hk])]
      rw [lookupJ, lookupJ]
      by_cases hq : k = q
      · subst hq
        rw [if_pos (by simp), if_pos (by simp)]
      · rw [if_neg (by simp [hq]), if_neg (by simp [hq])]
        exact ih

/-- Looking up an absent key continues into an appended tail. -/
theorem lookupJ_append : ∀ (fs tail : FSys) (p : String),
    lookupJ fs p = none → lookupJ (fs ++ tail) p = lookupJ tail p := by
  intro fs tail p h
  induction fs with
  | nil => rfl
  | cons kv rest ih =>
    obtain ⟨k, w⟩ := kv
    by_cases hk : k = p
    · subst hk
      rw [lookupJ, if_pos (by simp)] at h
      exact absurd h (by simp)
    · rw [lookupJ, if_neg (by simp [hk])] at h
      rw [List.cons_append, lookupJ, if_neg (by simp [hk])]
      exact ih h

/-- Looking up a key present on the left of an append finds it there. -/
theorem lookupJ_append_left : ∀ (fs tail : FSys) (p : String) (w : JVal),
    lookupJ fs p = some w → lookupJ (fs ++ tail) p = some w := by
  intro fs tail p w h
  induction fs with
  | nil => simp [lookupJ] at h
  | cons kv rest ih =>
    obtain ⟨k, w2⟩ := kv
    by_cases hk : k = p
    · subst hk
      rw [lookupJ, if_pos (by simp)] at h
      rw [List.cons_append, lookupJ, if_pos (by simp)]
      exact h
    · rw [lookupJ, if_neg (by simp [hk])] at h
      rw [List.cons_append, lookupJ, if_neg (by simp [hk])]
      exact ih h

/-- Reading back a just-written file yields the written value. -/
theorem readFS_writeFS_same : ∀ (fs : FSys) (p : String) (v : JVal),
    readFS (writeFS fs p v) p = some v := by
  intro fs p v
  rw [readFS, writeFS]
  cases hlk : lookupJ fs p with
  | some w =>
    show lookupJ (setKeyJ fs p v) p = some v
    exact lookupJ_setKeyJ_self fs p v (by simp [hlk])
  | none =>
    show lookupJ (fs ++ [(p, v)]) p = some v
    rw [lookupJ_append fs [(p, v)] p hlk]
    simp [lookupJ]

/-- Writing one file leaves other paths unchanged. -/
theorem readFS_writeFS_ne : ∀ (fs : FSys) (p q : String) (v : JVal),
    q ≠ p → readFS (writeFS fs p v) q = readFS fs q := by
  intro fs p q v hne
  rw [readFS, readFS, writeFS]
  cases hlk : lookupJ fs p with
  | some w =>
    show lookupJ (setKeyJ fs p v) q = lookupJ fs q
    exact lookupJ_setKeyJ_ne fs p q v hne
  | none =>
    show lookupJ (fs ++ [(p, v)]) q = lookupJ fs q
    cases hq : lookupJ fs q with
    | some w2 => exact lookupJ_append_left fs [(p, v)] q w2 hq
    | none =>
      rw [lookupJ_append fs [(p, v)] q hq]
      simp [lookupJ, Ne.symm hne]

/-- The backup path differs from the configuration path. -/
theorem bupath_ne : ∀ p : String, bupath p ≠ p := by
  intro p h
  have hlen := congrArg String.length h
  rw [bupath, String.length_append] at hlen
  have h3 : String.length ".bu" = 3 := rfl
  rw [h3] at hlen
  omega

/-- C5.  `load_config(path)` parses the file at `path`; on failure it
falls back to the backup `path + ".bu"`; on failure of both it falls
back to `DEFAULT_CONFIG`.  In every case the resulting configuration is
the chosen source deep-filled with the defaults (the default itself when
both reads fail, since deep-filling the defaults with themselves is the
identity), and the result is written back both to `path` and to the
backup; `write_config` itself always writes to both paths. -/
theorem c5_theorem :
    (∀ (base : String) (fs : FSys) (p : String) (c : JVal),
      readFS fs p = some c →
      (loadConfig base fs p).2 = deepFill c (defaultConfig base)) ∧
    (∀ (base : String) (fs : FSys) (p : String) (c : JVal),
      readFS fs p = none → readFS fs (bupath p) = some c →
      (loadConfig base fs p).2 = deepFill c (defaultConfig base)) ∧
    (∀ (base : String) (fs : FSys) (p : String),
      readFS fs p = none → readFS fs (bupath p) = none →
      (loadConfig base fs p).2 = defaultConfig base) ∧
    (∀ (base : String) (fs : FSys) (p : String),
      readFS (loadConfig base fs p).1 p = some (loadConfig base fs p).2 ∧
      readFS (loadConfig base fs p).1 (bupath p) = some (loadConfig base fs p).2) ∧
    (∀ (fs : FSys) (p : String) (cfg : JVal),
      readFS (writeConfig fs p cfg) p = some cfg ∧
      readFS (writeConfig fs p cfg) (bupath p) = some cfg) := by
  have hwc : ∀ (fs : FSys) (p : String) (cfg : JVal),
      readFS (writeConfig fs p cfg) p = some cfg ∧
      readFS (writeConfig fs p cfg) (bupath p) = some cfg := by
    intro fs p cfg
    constructor
    · rw [writeConfig, readFS_writeFS_ne _ _ _ _ (Ne.symm (bupath_ne p))]
      exact readFS_writeFS_same fs p cfg
    · exact readFS_writeFS_same _ (bupath p) cfg
  refine ⟨?_, ?_, ?_, ?_, hwc⟩
  · intro base fs p c h
    rw [loadConfig, h]
  · intro base fs p c h hbu
    rw [loadConfig, h, hbu]
  · intro base fs p h hbu
    rw [loadConfig, h, hbu]
    exact congrArg Prod.snd (congrArg (Prod.mk _) rfl)
  · intro base fs p
    exact hwc fs p (loadConfig base fs p).2

/-- Witness for C5 at a concrete file system: the configuration file
parses to the empty object, and the loaded configuration is that object
deep-filled with the defaults. -/
theorem c5_witness :
    readFS [("cfg", JVal.obj [])] "cfg" = some (.obj []) ∧
    (loadConfig "B" [("cfg", .obj [])] "cfg").2 =
      deepFill (.obj []) (defaultConfig "B") :=
  ⟨rfl, c5_theorem.1 "B" [("cfg", .obj [])] "cfg" (.obj []) rfl⟩

/-- Unfolding lemma: the keys of a cons dict. -/
theorem dictKeys_cons (a b : PyKey) (d : PyDict) :
    dictKeys ((a, b) :: d) = a :: dictKeys d := rfl

/-- The keys of `d[k] = v` are the keys of `d` together with `k`. -/
theorem mem_dictKeys_dSet : ∀ (d : PyDict) (k v x : PyKey),
    x ∈ dictKeys (dSet d k v) ↔ x ∈ dictKeys d ∨ x = k := by
  intro d k v x
  induction d with
  | nil => simp [dSet, dictKeys]
  | cons kv rest ih =>
    obtain ⟨k1, v1⟩ := kv
    rw [dSet]
    by_cases hk : k1 = k
    · subst hk
      rw [if_pos (by simp)]
      simp only [dictKeys_cons, List.mem_cons]
      tauto
    · rw [if_neg (by simp [hk])]
      simp only [dictKeys_cons, List.mem_cons]
      rw [ih]
      tauto

/-- `d[k] = v` preserves key-nodup. -/
theorem dSet_nodup : ∀ (d : PyDict) (k v : PyKey),
    (dictKeys d).Nodup → (dictKeys (dSet d k v)).Nodup := by
  intro d k v h
  induction d with
  | nil => simp [dSet, dictKeys]
  | cons kv rest ih =>
    obtain ⟨k1, v1⟩ := kv
    rw [dSet]
    rw [dictKeys_cons, List.nodup_cons] at h
    by_cases hk : k1 = k
    · subst hk
      rw [if_pos (by simp)]
      rw [dictKeys_cons, List.nodup_cons]
      exact h
    · rw [if_neg (by simp [hk])]
      rw [dictKeys_cons, List.nodup_cons]
      refine ⟨?_, ih h.2⟩
      intro hmem
      rcases (mem_dictKeys_dSet rest k v k1).mp hmem with hh | hh
      · exact h.1 hh
      · exact hk hh

/-- `del d[k]` on a present key (in a nodup dict): succeeds, removes
exactly `k`, and preserves nodup. -/
theorem dDel_spec : ∀ (d : PyDict) (k : PyKey),
    (dictKeys d).Nodup → k ∈ dictKeys d →
    ∃ d2, dDel d k = .ok d2 ∧
      (∀ x, x ∈ dictKeys d2 ↔ (x ∈ dictKeys d ∧ x ≠ k)) ∧
      (dictKeys d2).Nodup := by
  intro d k hnd hmem
  induction d with
  | nil => simp [dictKeys] at hmem
  | cons kv rest ih =>
    obtain ⟨k1, v1⟩ := kv
    rw [dictKeys_cons, List.nodup_cons] at hnd
    by_cases hk : k1 = k
    · subst hk
      refine ⟨rest, by rw [dDel, if_pos (by simp)], ?_, hnd.2⟩
      intro x
      rw [dictKeys_cons, List.mem_cons]
      constructor
      · intro hx
        refine ⟨Or.inr hx, ?_⟩
        intro hxk
        exact hnd.1 (hxk ▸ hx)
      · rintro ⟨hx | hx, hxk⟩
        · exact absurd hx hxk
        · exact hx
    · have hmem2 : k ∈ dictKeys rest := by
        rw [dictKeys_cons, List.mem_cons] at hmem
        rcases hmem with h | h
        · exact absurd h.symm hk
        · exact h
      obtain ⟨d2, hdel, hiff, hnd2⟩ := ih hnd.2 hmem2
      refine ⟨(k1, v1) :: d2, ?_, ?_, ?_⟩
      · rw [dDel, if_neg (by simp [hk])]
        simp [Bind.bind, Except.bind, hdel]
      · intro x
        rw [dictKeys_cons, List.mem_cons, dictKeys_cons, List.mem_cons, hiff x]
        constructor
        · intro hx
          rcases hx with hx | hx
          · subst hx
            exact ⟨Or.inl rfl, fun hc => hk hc⟩
          · exact ⟨Or.inr hx.1, hx.2⟩
        · rintro ⟨hx | hx, hxk⟩
          · exact Or.inl hx
          · exact Or.inr ⟨hx, hxk⟩
      · rw [dictKeys_cons, List.nodup_cons]
        refine ⟨?_, hnd2⟩
        intro hc
        exact hnd.1 ((hiff k1).mp hc).1

/-- `del d[k]` on an absent key raises `KeyError`. -/
theorem dDel_err : ∀ (d : PyDict) (k : PyKey),
    k ∉ dictKeys d → dDel d k = .error .keyError := by
  intro d k h
  induction d with
  | nil => rfl
  | cons kv rest ih =>
    obtain ⟨k1, v1⟩ := kv
    rw [dictKeys_cons, List.mem_cons] at h
    rw [dDel, if_neg (by simp; intro hc; exact h (Or.inl hc.symm))]
    rw [ih (fun hc => h (Or.inr hc))]
    simp [Bind.bind, Except.bind]

/-- The `typemap` loop terminates without error on a snapshot with
duplicate-free keys that covers the dict's non-string keys, and leaves a
dict whose keys are all strings: every non-string key it meets is
deleted and re-inserted under its `type_to_string` image. -/
theorem typemapLoop_ok : ∀ (t2s : PyKey → String)
    (snap : List (PyKey × PyKey)) (d : PyDict),
    (snap.map (fun p => p.1)).Nodup →
    (dictKeys d).Nodup →
    (∀ p ∈ snap, p.1 ∈ dictKeys d) →
    (∀ x ∈ dictKeys d, x.isStr = false → x ∈ snap.map (fun p => p.1)) →
    ∃ d2, typemapLoop t2s snap d = .ok d2 ∧
      ∀ x ∈ dictKeys d2, x.isStr = true := by
  intro t2s snap
  induction snap with
  | nil =>
    intro d _ _ _ inv4
    refine ⟨d, rfl, ?_⟩
    intro x hx
    cases hb : x.isStr with
    | true => rfl
    | false => simpa using inv4 x hx hb
  | cons kv rest ih =>
    obtain ⟨k, v⟩ := kv
    intro d hsnap hnd inv3 inv4
    rw [List.map_cons, List.nodup_cons] at hsnap
    cases hk : k.isStr with
    | true =>
      obtain ⟨d2, hstep, hsub, hsup, hnd2⟩ :
          ∃ d2, typemapLoop t2s ((k, v) :: rest) d = typemapLoop t2s rest d2 ∧
            (∀ x, x ∈ dictKeys d2 → x ∈ dictKeys d ∨ x = k) ∧
            (∀ x, x ∈ dictKeys d → x ∈ dictKeys d2) ∧
            (dictKeys d2).Nodup := by
        by_cases hv : v.isStr = true
        · exact ⟨d,
            by simp [typemapLoop, hk, hv, Bind.bind, Except.bind, pure, Except.pure],
            fun x hx => Or.inl hx, fun x hx => hx, hnd⟩
        · refine ⟨dSet d k (.strK (t2s v)),
            by simp [typemapLoop, hk, hv, Bind.bind, Except.bind, pure, Except.pure],
            ?_, ?_, dSet_nodup d _ _ hnd⟩
          · intro x hx
            exact (mem_dictKeys_dSet d k _ x).mp hx
          · intro x hx
            exact (mem_dictKeys_dSet d k _ x).mpr (Or.inl hx)
      rw [hstep]
      refine ih d2 hsnap.2 hnd2 ?_ ?_
      · intro p hp
        exact hsup _ (inv3 p (List.mem_cons_of_mem _ hp))
      · intro x hx hxs
        rcases hsub x hx with h | h
        · have h4 := inv4 x h hxs
          rw [List.map_cons, List.mem_cons] at h4
          rcases h4 with h5 | h5
          · rw [h5] at hxs
            rw [hxs] at hk
            exact absurd hk (by simp)
          · exact h5
        · rw [h] at hxs
          rw [hxs] at hk
          exact absurd hk (by simp)
    | false =>
      obtain ⟨dd, hdel, hiffdd, hnddd⟩ :=
        dDel_spec d k hnd (inv3 (k, v) (by simp))
      obtain ⟨d2, hstep, hsub, hsup, hnd2⟩ :
          ∃ d2, typemapLoop t2s ((k, v) :: rest) d = typemapLoop t2s rest d2 ∧
            (∀ x, x ∈ dictKeys d2 →
              (x ∈ dictKeys d ∧ x ≠ k) ∨ x = .strK (t2s k)) ∧
            (∀ x, x ∈ dictKeys dd → x ∈ dictKeys d2) ∧
            (dictKeys d2).Nodup := by
        by_cases hv : v.isStr = true
        · refine ⟨dSet dd (.strK (t2s k)) v,
            by simp [typemapLoop, hk, hv, hdel, Bind.bind, Except.bind, pure, Except.pure],
            ?_, ?_, dSet_nodup _ _ _ hnddd⟩
          · intro x hx
            rcases (mem_dictKeys_dSet dd _ v x).mp hx with h | h
            · exact Or.inl ((hiffdd x).mp h)
            · exact Or.inr h
          · intro x hx
            exact (mem_dictKeys_dSet dd _ v x).mpr (Or.inl hx)
        · refine ⟨dSet (dSet dd (.strK (t2s k)) v) (.strK (t2s k)) (.strK (t2s v)),
            by simp [typemapLoop, hk, hv, hdel, Bind.bind, Except.bind, pure, Except.pure],
            ?_, ?_, dSet_nodup _ _ _ (dSet_nodup _ _ _ hnddd)⟩
          · intro x hx
            rcases (mem_dictKeys_dSet _ _ _ x).mp hx with h | h
            · rcases (mem_dictKeys_dSet dd _ v x).mp h with h2 | h2
              · exact Or.inl ((hiffdd x).mp h2)
              · exact Or.inr h2
            · exact Or.inr h
          · intro x hx
            exact (mem_dictKeys_dSet _ _ _ x).mpr
              (Or.inl ((mem_dictKeys_dSet dd _ v x).mpr (Or.inl hx)))
      rw [hstep]
      refine ih d2 hsnap.2 hnd2 ?_ ?_
      · intro p hp
        have h1 := inv3 p (List.mem_cons_of_mem _ hp)
        have hpk : p.1 ≠ k := by
          intro hc
          apply hsnap.1
          rw [← hc]
          exact List.mem_map.mpr ⟨p, hp, rfl⟩
        exact hsup _ ((hiffdd p.1).mpr ⟨h1, hpk⟩)
      · intro x hx hxs
        rcases hsub x hx with ⟨hxd, hxk⟩ | h
        · have h4 := inv4 x hxd hxs
          rw [List.map_cons, List.mem_cons] at h4
          rcases h4 with h5 | h5
          · exact absurd h5 hxk
          · exact h5
        · rw [h] at hxs
          simp [PyKey.isStr] at hxs

/-- The `inputconverter` loop raises `KeyError` as soon as it meets a
non-string key, provided the `typemap` dict holds only string keys (the
state the preceding `typemap` loop leaves): the buggy
`del options["typemap"][k]` line then deletes a key that cannot be
present. -/
theorem icLoop_err : ∀ (t2s : PyKey → String)
    (snap : List (PyKey × PyKey)) (tm ic fnic : PyDict),
    (∀ x ∈ dictKeys tm, x.isStr = true) →
    (∃ p ∈ snap, p.1.isStr = false) →
    inputconverterLoop t2s snap tm ic fnic = .error .keyError := by
  intro t2s snap
  induction snap with
  | nil =>
    intro tm ic fnic _ hex
    simp at hex
  | cons kv rest ih =>
    obtain ⟨k, v⟩ := kv
    intro tm ic fnic hstr hex
    cases hk : k.isStr with
    | false =>
      have hnk : k ∉ dictKeys tm := by
        intro hc
        rw [hstr k hc] at hk
        exact absurd hk (by simp)
      simp [inputconverterLoop, hk, Bind.bind, Except.bind, dDel_err tm k hnk]
    | true =>
      have hex2 : ∃ p ∈ rest, p.1.isStr = false := by
        rcases hex with ⟨p, hp, hps⟩
        rcases List.mem_cons.mp hp with h | h
        · rw [h] at hps
          rw [hps] at hk
          exact absurd hk (by simp)
        · exact ⟨p, h, hps⟩
      by_cases hv : v.isStr = true
      · have hstep : inputconverterLoop t2s ((k, v) :: rest) tm ic fnic =
            inputconverterLoop t2s rest tm ic (dSet fnic k v) := by
          simp [inputconverterLoop, hk, hv, Bind.bind, Except.bind, pure, Except.pure]
        rw [hstep]
        exact ih tm _ _ hstr hex2
      · have hstep : inputconverterLoop t2s ((k, v) :: rest) tm ic fnic =
            inputconverterLoop t2s rest tm (dSet ic k (.strK (t2s v)))
              (dSet fnic k (.strK (t2s v))) := by
          simp [inputconverterLoop, hk, hv, Bind.bind, Except.bind, pure, Except.pure]
        rw [hstep]
        exact ih tm _ _ hstr hex2

/-- C10.  For every options dict whose `inputconverter` mapping contains
a non-string key `k` that is not also a key of `options["typemap"]`
(dicts have duplicate-free keys), `update_render_options(options)`
raises `KeyError`: the non-string-key branch of the `inputconverter`
loop deletes `k` from `options["typemap"]` instead of from
`options["inputconverter"]`, and after the preceding `typemap` loop the
`typemap` holds only string keys, so the deletion always misses. -/
theorem c10_theorem : ∀ (t2s : PyKey → String) (fn : RGlobal) (o : ROpts)
    (k v : PyKey),
    (dictKeys (o.typemap.getD [])).Nodup →
    (k, v) ∈ o.inputconverter.getD [] →
    k.isStr = false →
    k ∉ dictKeys (o.typemap.getD []) →
    updateRenderOptions t2s fn o = .error .keyError := by
  intro t2s fn o k v hnd hmem hks hkt
  obtain ⟨d2, hloop, hstr⟩ := typemapLoop_ok t2s (o.typemap.getD [])
    (o.typemap.getD []) hnd hnd
    (fun p hp => List.mem_map.mpr ⟨p, hp, rfl⟩)
    (fun x hx _ => hx)
  have hic := icLoop_err t2s (o.inputconverter.getD []) d2
    (o.inputconverter.getD []) fn.inputconverter hstr ⟨(k, v), hmem, hks⟩
  simp [updateRenderOptions, hloop, hic, Bind.bind, Except.bind]

/-- Witness for C10 at a concrete options dict: an empty `typemap` and
an `inputconverter` holding one non-string (type) key. -/
theorem c10_witness :
    updateRenderOptions (fun kk => match kk with | .strK s => s | .typeK t => t)
      ⟨[], []⟩ ⟨some [], some [(.typeK "T", .strK "c")]⟩ = .error .keyError :=
  c10_theorem _ _ _ (.typeK "T") (.strK "c") (by simp [dictKeys])
    (by simp) rfl (by simp [dictKeys])

/-- Strong induction over shelf forests, descending into the subshelf
forests of members. -/
theorem pyForestSubInd (P : List PyShelf → Prop)
    (h : ∀ vs, (∀ s, s ∈ vs → P s.subshelves) → P vs) : ∀ vs, P vs := fun vs =>
  h vs (fun s hs => pyForestSubInd P h s.subshelves)
termination_by vs => sizeOf vs
decreasing_by
  obtain ⟨o, n, d, ns, ss⟩ := s
  have h2 := List.sizeOf_lt_of_mem hs
  simp only [PyShelf.subshelves, PyShelf.mk.sizeOf_spec] at *
  omega

/-- With `all=True` the subshelf loop of `deep_find_node` collects every
subshelf's paths, i.e. it is the shelf loop of `find_nodeid` with the
parent name prepended. -/
theorem deepFindSubs_true_eq : ∀ (pname : String) (subs : List PyShelf)
    (nid : String),
    deepFindSubs pname subs nid true =
      (findLoop subs nid true).map (fun p => pname :: p) := by
  intro pname subs nid
  induction subs with
  | nil => rfl
  | cons t rest ih =>
    rw [deepFindSubs, findLoop]
    by_cases hl : (deepFindNode t nid true).length > 0
    · simp [hl, ih]
    · simp [hl, ih]

/-- With `all=True` the shelf loop concatenates the per-shelf results. -/
theorem findLoop_true_cons : ∀ (s : PyShelf) (rest : List PyShelf)
    (nid : String),
    findLoop (s :: rest) nid true =
      deepFindNode s nid true ++ findLoop rest nid true := by
  intro s rest nid
  rw [findLoop]
  by_cases hl : (deepFindNode s nid true).length > 0
  · rw [if_pos hl, if_pos rfl]
  · have : deepFindNode s nid true = [] := by
      cases hd : deepFindNode s nid true with
      | nil => rfl
      | cons a b => rw [hd] at hl; simp at hl
    rw [if_neg hl, this, List.nil_append]

/-- Membership in the shelf loop is membership in some shelf's
`deep_find_node` result. -/
theorem mem_findLoop_true : ∀ (vs : List PyShelf) (nid : String)
    (p : List String),
    p ∈ findLoop vs nid true ↔ ∃ s ∈ vs, p ∈ deepFindNode s nid true := by
  intro vs nid p
  induction vs with
  | nil => simp [findLoop]
  | cons s rest ih =>
    rw [findLoop_true_cons, List.mem_append, ih]
    constructor
    · rintro (h | ⟨t, ht, hm⟩)
      · exact ⟨s, by simp, h⟩
      · exact ⟨t, by simp [ht], hm⟩
    · rintro ⟨t, ht, hm⟩
      rcases List.mem_cons.mp ht with h | h
      · exact Or.inl (h ▸ hm)
      · exact Or.inr ⟨t, h, hm⟩

/-- Membership in `deep_find_node` with `all=True`: either the shelf
itself holds the id and the path is its bare name, or the path descends
into the subshelf loop. -/
theorem mem_deepFindNode_true : ∀ (s : PyShelf) (nid : String)
    (p : List String),
    p ∈ deepFindNode s nid true ↔
      (containsId s nid = true ∧ p = [s.name]) ∨
      ∃ q, p = s.name :: q ∧ q ∈ findLoop s.subshelves nid true := by
  intro s nid p
  obtain ⟨o, n, d, ns, ss⟩ := s
  rw [deepFindNode]
  rw [if_neg (by rintro ⟨_, h⟩; exact absurd h (by simp))]
  rw [deepFindSubs_true_eq]
  rw [List.mem_append]
  simp only [PyShelf.name, PyShelf.subshelves]
  by_cases hc : containsId (.mk o n d ns ss) nid = true
  · rw [if_pos hc]
    simp only [List.mem_singleton, List.mem_map, hc, true_and]
    constructor
    · rintro (h | ⟨q, hq, hp⟩)
      · exact Or.inl h
      · exact Or.inr ⟨q, hp.symm, hq⟩
    · rintro (h | ⟨q, hp, hq⟩)
      · exact Or.inl h
      · exact Or.inr ⟨q, hq, hp.symm⟩
  · rw [if_neg hc]
    simp only [List.not_mem_nil, false_or, List.mem_map, hc, false_and]
    constructor
    · rintro ⟨q, hq, hp⟩
      exact Or.inr ⟨q, hp.symm, hq⟩
    · rintro (h | ⟨q, hp, hq⟩)
      · exact absurd h.1 (by simp)
      · exact ⟨q, hq, hp.symm⟩

/-- Main C8 equivalence: a path is produced by the `find_nodeid` loop
with `all=True` exactly when it follows a chain of nested shelves by
name ending at a shelf whose node list holds the id. -/
theorem mem_findLoop_pathOccurs (nid : String) : ∀ (vs : List PyShelf),
    ∀ p, p ∈ findLoop vs nid true ↔ pathOccursF nid vs p := by
  refine pyForestSubInd _ ?_
  intro vs ih p
  match p with
  | [] =>
    simp only [pathOccursF]
    rw [iff_false, mem_findLoop_true]
    rintro ⟨s, hs, hmem⟩
    rw [mem_deepFindNode_true] at hmem
    rcases hmem with ⟨_, h⟩ | ⟨q, h, _⟩ <;> simp at h
  | [a] =>
    rw [mem_findLoop_true]
    simp only [pathOccursF]
    constructor
    · rintro ⟨s, hs, hmem⟩
      rw [mem_deepFindNode_true] at hmem
      rcases hmem with ⟨hc, hp⟩ | ⟨q, hq, hmem2⟩
      · have ha : a = s.name := by simpa using hp
        exact ⟨s, hs, ha.symm, hc⟩
      · have hq2 : a = s.name ∧ [] = q := by simpa using hq
        rw [ih s hs] at hmem2
        rw [← hq2.2] at hmem2
        simp [pathOccursF] at hmem2
    · rintro ⟨s, hs, hname, hc⟩
      refine ⟨s, hs, ?_⟩
      rw [mem_deepFindNode_true]
      exact Or.inl ⟨hc, by rw [hname]⟩
  | a :: b :: t =>
    rw [mem_findLoop_true]
    simp only [pathOccursF]
    constructor
    · rintro ⟨s, hs, hmem⟩
      rw [mem_deepFindNode_true] at hmem
      rcases hmem with ⟨_, hp⟩ | ⟨q, hq, hmem2⟩
      · simp at hp
      · have ha : a = s.name ∧ b :: t = q := by simpa using hq
        rw [ih s hs] at hmem2
        rw [← ha.2] at hmem2
        exact ⟨s, hs, ha.1.symm, hmem2⟩
    · rintro ⟨s, hs, hname, hocc⟩
      refine ⟨s, hs, ?_⟩
      rw [mem_deepFindNode_true]
      exact Or.inr ⟨b :: t, by rw [hname], (ih s hs (b :: t)).mpr hocc⟩

/-- C8.  For every library and id, whenever the shelf snapshot is
obtainable (`to_shelf` succeeds on every inner shelf, giving `vs`),
`find_nodeid(id, all=True)` performs the depth-first search over `vs`
and the returned list contains exactly the paths — each the list of
shelf names from a top-level shelf down to the containing shelf — at
which a node class with the given id occurs. -/
theorem c8_theorem : ∀ (g : GC) (lib : Library) (nid : String)
    (vs : List PyShelf),
    toShelfList g lib._shelves = .ok vs →
    findNodeid g lib nid true = .ok (findLoop vs nid true) ∧
    ∀ p, p ∈ findLoop vs nid true ↔ pathOccursF nid vs p := by
  intro g lib nid vs h
  refine ⟨?_, fun p => mem_findLoop_pathOccurs nid vs p⟩
  simp [findNodeid, h, Bind.bind, Except.bind]

/-- Witness for C8 at a concrete library: one shelf "A" holding the
node with id "x"; the search returns exactly the path ["A"], which
indeed addresses a shelf containing the id. -/
theorem c8_witness :
    findNodeid ⟨fun _ => true, fun _ => true⟩
        ⟨[fromShelf (.mk 10 "A" "" [⟨1, "x"⟩] [])]⟩ "x" true =
      .ok [["A"]] ∧
    pathOccursF "x" [.mk 10 "A" "" [⟨1, "x"⟩] []] ["A"] :=
  ⟨(c8_theorem ⟨fun _ => true, fun _ => true⟩
      ⟨[fromShelf (.mk 10 "A" "" [⟨1, "x"⟩] [])]⟩ "x"
      [.mk 10 "A" "" [⟨1, "x"⟩] []] rfl).1,
   ((c8_theorem ⟨fun _ => true, fun _ => true⟩
      ⟨[fromShelf (.mk 10 "A" "" [⟨1, "x"⟩] [])]⟩ "x"
      [.mk 10 "A" "" [⟨1, "x"⟩] []] rfl).2 ["A"]).mp (by decide)⟩

/-- The pure view keeps the inner shelf's name. -/
theorem viewT_name (g : GC) : ∀ i : InnerShelf, (viewT g i).name = i.name := by
  intro i
  obtain ⟨nr, subs, n, d, sh⟩ := i
  rfl

/-- The pure view's subshelves are the views of the inner subshelves. -/
theorem viewT_subshelves (g : GC) : ∀ i : InnerShelf,
    (viewT g i).subshelves = viewL g i.inner_subshelves := by
  intro i
  obtain ⟨nr, subs, n, d, sh⟩ := i
  rfl

/-- Name search commutes with taking pure views. -/
theorem find?_viewL (g : GC) : ∀ (ss : List InnerShelf) (seg : String),
    (viewL g ss).find? (fun s => s.name == seg) =
      ((ss.find? (fun i => i.name == seg)).map (viewT g)) := by
  intro ss seg
  induction ss with
  | nil => rfl
  | cons i rest ih =>
    rw [viewL]
    by_cases hn : i.name == seg
    · simp [List.find?_cons, viewT_name, hn]
    · simp only [List.find?_cons, viewT_name, hn]
      exact ih

/-- The enumeration index search of `get_node_in_shelf` returns (in its
node component) the plain first match. -/
theorem findNodeIdx_map_snd : ∀ (ns : List NodeCls) (nid : String) (i : Nat),
    (findNodeIdx ns nid i).map Prod.snd =
      ns.find? (fun c => c.node_id == nid) := by
  intro ns nid
  induction ns with
  | nil => intro i; rfl
  | cons c rest ih =>
    intro i
    rw [findNodeIdx]
    by_cases hc : c.node_id == nid
    · simp [if_pos hc, List.find?_cons, hc]
    · simp only [if_neg hc, List.find?_cons, hc]
      exact ih (i + 1)

/-- A node list has no element with the id exactly when the first-match
search fails. -/
theorem any_eq_false_iff_find?_none : ∀ (ns : List NodeCls) (nid : String),
    ns.any (fun c => c.node_id == nid) = false ↔
      ns.find? (fun c => c.node_id == nid) = none := by
  intro ns nid
  rw [List.find?_eq_none]
  constructor
  · intro h x hx hpx
    rw [List.any_eq_false] at h
    exact absurd hpx (h x hx)
  · intro h
    rw [List.any_eq_false]
    intro x hx
    exact h x hx

/-- First component of `flatten_shelf` on a constructor. -/
theorem flattenShelf_fst (o : Nat) (n d : String) (ns : List NodeCls)
    (ss : List PyShelf) :
    (flattenShelf (.mk o n d ns ss)).1 = ns ++ (flattenShelfList ss).1 := rfl

/-- First component of `flatten_shelf` over a cons list. -/
theorem flattenShelfList_fst (s : PyShelf) (rest : List PyShelf) :
    (flattenShelfList (s :: rest)).1 =
      (flattenShelf s).1 ++ (flattenShelfList rest).1 := rfl

/-- Walking a path whose head misses the first shelf's name skips it. -/
theorem walkV_cons_ne : ∀ (s : PyShelf) (rest : List PyShelf)
    (a : String) (q : List String), s.name ≠ a →
    walkV (s :: rest) (a :: q) = walkV rest (a :: q) := by
  intro s rest a q hne
  have hf : (s :: rest).find? (fun v => v.name == a) =
      rest.find? (fun v => v.name == a) := by
    simp [List.find?_cons, show (s.name == a) = false from by simp [hne]]
  match q with
  | [] => rw [walkV, walkV, hf]
  | b :: t =>
    rw [walkV, walkV, hf]
    · intro h; exact absurd h (by simp)
    · intro h; exact absurd h (by simp)

/-- A `contains`-negative string list has no such member. -/
theorem contains_false_not_mem : ∀ (l : List String) (a : String),
    l.contains a = false → a ∉ l := by
  intro l a h hc
  have h2 : List.elem a l = false := h
  rw [List.elem_eq_true_of_mem hc] at h2
  exact absurd h2 (by simp)

/-- On none-backed shelves, `get_shelf_from_path`'s walk composed with
`to_shelf` computes the pure view-level walk. -/
theorem walkPath_nb (g : GC) : ∀ (p : List String) (ss : List InnerShelf),
    noneBackedL ss = true →
    (do let i ← walkPath ss p; toShelf g i) =
      (match walkV (viewL g ss) p with
       | some v => Except.ok v
       | none => Except.error PyErr.valueError) := by
  intro p
  induction p with
  | nil => intro ss h; rfl
  | cons a q ih =>
    intro ss hnb
    cases q with
    | nil =>
      cases hf : ss.find? (fun i => i.name == a) with
      | some i =>
        have hm := List.mem_of_find?_eq_some hf
        simp [walkPath, hf, Bind.bind, Except.bind,
          toShelf_nb g i (noneBackedT_of_mem ss hnb i hm), walkV, find?_viewL]
      | none =>
        simp [walkPath, hf, Bind.bind, Except.bind, walkV, find?_viewL]
    | cons b t =>
      cases hf : ss.find? (fun i => i.name == a) with
      | some i =>
        have hm := List.mem_of_find?_eq_some hf
        have hnbt := noneBackedT_of_mem ss hnb i hm
        have hnbsubs : noneBackedL i.inner_subshelves = true := by
          obtain ⟨nr, subs, n, d, sh⟩ := i
          rw [noneBackedT, Bool.and_eq_true] at hnbt
          exact hnbt.2
        have hwp : walkPath ss (a :: b :: t) =
            walkPath i.inner_subshelves (b :: t) := by
          rw [walkPath, hf]
          intro h; exact absurd h (by simp)
        have hwv : walkV (viewL g ss) (a :: b :: t) =
            walkV (viewL g i.inner_subshelves) (b :: t) := by
          rw [walkV, find?_viewL, hf]
          · simp [viewT_subshelves]
          · intro h; exact absurd h (by simp)
        rw [hwp, hwv]
        exact ih i.inner_subshelves hnbsubs
      | none =>
        have hwp : walkPath ss (a :: b :: t) = .error .valueError := by
          rw [walkPath, hf]
          intro h; exact absurd h (by simp)
        have hwv : walkV (viewL g ss) (a :: b :: t) = none := by
          rw [walkV, find?_viewL, hf]
          · rfl
          · intro h; exact absurd h (by simp)
        rw [hwp, hwv]
        rfl

/-- List step for `deepFindNode_nil_iff`: the subshelf loop is empty
exactly when no subshelf's flattened nodes hold the id. -/
theorem deepFindSubs_nil_iff_of : ∀ (pname : String) (subs : List PyShelf)
    (nid : String) (all : Bool),
    (∀ t ∈ subs, ∀ a2 : Bool, deepFindNode t nid a2 = [] ↔
      (flattenShelf t).1.find? (fun c => c.node_id == nid) = none) →
    (deepFindSubs pname subs nid all = [] ↔
      (flattenShelfList subs).1.find? (fun c => c.node_id == nid) = none) := by
  intro pname subs nid all
  induction subs with
  | nil =>
    intro _
    constructor
    · intro _; rfl
    · intro _; rfl
  | cons t rest ih =>
    intro hall
    rw [deepFindSubs, flattenShelfList_fst, List.find?_append]
    by_cases hl : (deepFindNode t nid true).length > 0
    · rw [if_pos hl]
      have hne : deepFindNode t nid true ≠ [] := by
        intro hc; rw [hc] at hl; simp at hl
      have hfind : (flattenShelf t).1.find? (fun c => c.node_id == nid) ≠ none := by
        intro hc
        exact hne ((hall t (by simp) true).mpr hc)
      refine iff_of_false ?_ ?_
      · by_cases ha : all = true
        · rw [if_pos ha]
          intro hc
          rw [List.append_eq_nil] at hc
          rw [List.map_eq_nil_iff] at hc
          exact hne hc.1
        · rw [if_neg ha]
          intro hc
          rw [List.map_eq_nil_iff] at hc
          exact hne hc
      · cases ho : (flattenShelf t).1.find? (fun c => c.node_id == nid) with
        | some c => simp [Option.or]
        | none => exact absurd ho hfind
    · rw [if_neg hl]
      have hnil : deepFindNode t nid true = [] := by
        cases hd : deepFindNode t nid true with
        | nil => rfl
        | cons x y => rw [hd] at hl; simp at hl
      have hfind : (flattenShelf t).1.find? (fun c => c.node_id == nid) = none :=
        (hall t (by simp) true).mp hnil
      rw [hfind, Option.none_or]
      exact ih (fun t2 ht2 => hall t2 (by simp [ht2]))

/-- `deep_find_node` returns no path exactly when the id is absent from
the shelf's flattened node list, for either value of `all`. -/
theorem deepFindNode_nil_iff : ∀ (s : PyShelf), ∀ (nid : String) (all : Bool),
    deepFindNode s nid all = [] ↔
      (flattenShelf s).1.find? (fun c => c.node_id == nid) = none := by
  refine pyShelfStrongInd _ ?_
  intro o n d ns ss ih nid all
  rw [flattenShelf_fst, List.find?_append]
  by_cases hc : containsId (.mk o n d ns ss) nid = true
  · have hfns : ns.find? (fun c => c.node_id == nid) ≠ none := by
      intro hno
      have hfalse := (any_eq_false_iff_find?_none ns nid).mpr hno
      rw [containsId, PyShelf.nodes] at hc
      rw [hfalse] at hc
      exact absurd hc (by simp)
    refine iff_of_false ?_ ?_
    · rw [deepFindNode]
      by_cases hq : containsId (.mk o n d ns ss) nid = true ∧ all = false
      · rw [if_pos hq]; simp
      · rw [if_neg hq, if_pos hc]; simp
    · cases ho : ns.find? (fun c => c.node_id == nid) with
      | some c => simp [Option.or]
      | none => exact absurd ho hfns
  · have hcf : containsId (.mk o n d ns ss) nid = false := by
      cases hb : containsId (.mk o n d ns ss) nid with
      | false => rfl
      | true => exact absurd hb hc
    have hfns : ns.find? (fun c => c.node_id == nid) = none := by
      apply (any_eq_false_iff_find?_none ns nid).mp
      rw [containsId, PyShelf.nodes] at hcf
      exact hcf
    rw [hfns, Option.none_or, deepFindNode]
    rw [if_neg (fun hq => hc hq.1), if_neg hc, List.nil_append]
    exact deepFindSubs_nil_iff_of n ss nid all (fun t ht a2 => ih t ht nid a2)

/-- The `all=False` subshelf loop result is a prefix of the `all=True`
one. -/
theorem deepFindSubs_false_le_true : ∀ (pname : String) (subs : List PyShelf)
    (nid : String),
    ∃ tail, deepFindSubs pname subs nid true =
      deepFindSubs pname subs nid false ++ tail := by
  intro pname subs nid
  induction subs with
  | nil => exact ⟨[], rfl⟩
  | cons t rest ih =>
    rw [deepFindSubs, deepFindSubs]
    by_cases hl : (deepFindNode t nid true).length > 0
    · rw [if_pos hl, if_pos hl, if_pos rfl, if_neg (by simp)]
      exact ⟨deepFindSubs pname rest nid true, rfl⟩
    · rw [if_neg hl, if_neg hl]
      exact ih

/-- The `all=False` result of `deep_find_node` is a prefix of the
`all=True` result. -/
theorem deepFindNode_false_le_true : ∀ (s : PyShelf) (nid : String),
    ∃ tail, deepFindNode s nid true = deepFindNode s nid false ++ tail := by
  intro s nid
  obtain ⟨o, n, d, ns, ss⟩ := s
  rw [deepFindNode, deepFindNode]
  by_cases hc : containsId (.mk o n d ns ss) nid = true
  · have hg1 : ¬(containsId (.mk o n d ns ss) nid = true ∧ (true : Bool) = false) :=
      fun hq => absurd hq.2 (by simp)
    have hg2 : containsId (.mk o n d ns ss) nid = true ∧ (false : Bool) = false :=
      ⟨hc, rfl⟩
    rw [if_neg hg1, if_pos hc, if_pos hg2]
    exact ⟨deepFindSubs n ss nid true, rfl⟩
  · have hg1 : ¬(containsId (.mk o n d ns ss) nid = true ∧ (true : Bool) = false) :=
      fun hq => hc hq.1
    have hg2 : ¬(containsId (.mk o n d ns ss) nid = true ∧ (false : Bool) = false) :=
      fun hq => hc hq.1
    rw [if_neg hg1, if_neg hg2, if_neg hc]
    simp only [List.nil_append]
    exact deepFindSubs_false_le_true n ss nid

/-- Every path produced by the subshelf loop starts with the parent
name. -/
theorem mem_deepFindSubs_shape : ∀ (pname : String) (subs : List PyShelf)
    (nid : String) (all : Bool) (p : List String),
    p ∈ deepFindSubs pname subs nid all → ∃ q, p = pname :: q := by
  intro pname subs nid all
  induction subs with
  | nil => intro p hp; simp [deepFindSubs] at hp
  | cons t rest ih =>
    intro p hp
    rw [deepFindSubs] at hp
    by_cases hl : (deepFindNode t nid true).length > 0
    · rw [if_pos hl] at hp
      by_cases ha : all = true
      · rw [if_pos ha, List.mem_append] at hp
        rcases hp with hp | hp
        · rcases List.mem_map.mp hp with ⟨q, _, hq⟩
          exact ⟨q, hq.symm⟩
        · exact ih p hp
      · rw [if_neg ha] at hp
        rcases List.mem_map.mp hp with ⟨q, _, hq⟩
        exact ⟨q, hq.symm⟩
    · rw [if_neg hl] at hp
      exact ih p hp

/-- Every path produced by `deep_find_node` starts with the shelf's
name. -/
theorem mem_deepFindNode_shape : ∀ (s : PyShelf) (nid : String)
    (all : Bool) (p : List String),
    p ∈ deepFindNode s nid all → ∃ q, p = s.name :: q := by
  intro s nid all p hp
  obtain ⟨o, n, d, ns, ss⟩ := s
  rw [deepFindNode] at hp
  by_cases hq : containsId (.mk o n d ns ss) nid = true ∧ all = false
  · rw [if_pos hq] at hp
    simp at hp
    exact ⟨[], by rw [hp]; rfl⟩
  · rw [if_neg hq, List.mem_append] at hp
    rcases hp with hp | hp
    · by_cases hc : containsId (.mk o n d ns ss) nid = true
      · rw [if_pos hc] at hp
        simp at hp
        exact ⟨[], by rw [hp]; rfl⟩
      · rw [if_neg hc] at hp
        simp at hp
    · exact mem_deepFindSubs_shape n ss nid all p hp

/-- The head path of a nonempty `find_nodeid(all=False)` loop result
starts with the name of one of the shelves. -/
theorem findLoop_false_head : ∀ (vs : List PyShelf) (nid : String)
    (p : List String) (tail : List (List String)),
    findLoop vs nid false = p :: tail → ∃ s ∈ vs, ∃ q, p = s.name :: q := by
  intro vs nid
  induction vs with
  | nil => intro p tail h; simp [findLoop] at h
  | cons s rest ih =>
    intro p tail h
    rw [findLoop] at h
    by_cases hl : (deepFindNode s nid false).length > 0
    · rw [if_pos hl, if_neg (by simp)] at h
      have hp : p ∈ deepFindNode s nid false := by
        rw [h]; simp
      obtain ⟨q, hq⟩ := mem_deepFindNode_shape s nid false p hp
      exact ⟨s, by simp, q, hq⟩
    · rw [if_neg hl] at h
      obtain ⟨t, ht, q, hq⟩ := ih p tail h
      exact ⟨t, by simp [ht], q, hq⟩

/-- Decomposing a nonempty `all=False` subshelf-loop result: the head
path prepends the parent name to the head path of the `find_nodeid`
loop over the subshelves. -/
theorem deepFindSubs_false_decomp : ∀ (pname : String) (subs : List PyShelf)
    (nid : String) (p : List String) (tail : List (List String)),
    deepFindSubs pname subs nid false = p :: tail →
    ∃ q qtail, p = pname :: q ∧ findLoop subs nid false = q :: qtail := by
  intro pname subs nid
  induction subs with
  | nil => intro p tail h; simp [deepFindSubs] at h
  | cons t rest ih =>
    intro p tail h
    rw [deepFindSubs] at h
    by_cases hl : (deepFindNode t nid true).length > 0
    · rw [if_pos hl, if_neg (by simp)] at h
      cases hd : deepFindNode t nid true with
      | nil => rw [hd] at hl; simp at hl
      | cons h0 ptail =>
        rw [hd, List.map_cons] at h
        have hp : p = pname :: h0 := by
          injection h with h1 h2
          exact h1.symm
        have hfsome : (flattenShelf t).1.find?
            (fun c => c.node_id == nid) ≠ none := by
          intro hcn
          have hnil := (deepFindNode_nil_iff t nid true).mpr hcn
          rw [hd] at hnil
          exact absurd hnil (by simp)
        have hpsf : deepFindNode t nid false ≠ [] := fun hcn =>
          hfsome ((deepFindNode_nil_iff t nid false).mp hcn)
        cases hdf : deepFindNode t nid false with
        | nil => exact absurd hdf hpsf
        | cons q0 qtail0 =>
          obtain ⟨tail2, hpre⟩ := deepFindNode_false_le_true t nid
          rw [hd, hdf] at hpre
          rw [List.cons_append] at hpre
          have hq0 : h0 = q0 := by
            injection hpre with h1 h2
          refine ⟨h0, qtail0, hp, ?_⟩
          rw [findLoop]
          rw [if_pos (by rw [hdf]; simp), if_neg (by simp), hdf, hq0]
    · rw [if_neg hl] at h
      obtain ⟨q, qtail, hq, hfl⟩ := ih p tail h
      refine ⟨q, qtail, hq, ?_⟩
      rw [findLoop]
      have hnilT : deepFindNode t nid true = [] := by
        cases hdt : deepFindNode t nid true with
        | nil => rfl
        | cons x y => rw [hdt] at hl; simp at hl
      have hnilF : deepFindNode t nid false = [] :=
        (deepFindNode_nil_iff t nid false).mpr
          ((deepFindNode_nil_iff t nid true).mp hnilT)
      rw [if_neg (by rw [hnilF]; simp)]
      exact hfl

/-- First component of `flatten_shelf` via accessors. -/
theorem flattenShelf_fst2 : ∀ s : PyShelf,
    (flattenShelf s).1 = s.nodes ++ (flattenShelfList s.subshelves).1 := by
  intro s
  obtain ⟨o, n, d, ns, ss⟩ := s
  rfl

/-- One step of the C3 forest induction: the statement for a forest
follows from the statement for the subshelf forests of its members. -/
theorem c3MainAux (nid : String) : ∀ vs : List PyShelf,
    (∀ s ∈ vs, c3Stmt nid s.subshelves) → c3Stmt nid vs := by
  intro vs
  induction vs with
  | nil =>
    intro _ _ _
    exact ⟨fun _ => rfl, fun p tail h => by simp [findLoop] at h⟩
  | cons s rest ihrest =>
    intro hsub htop hall
    have hx := htop
    rw [List.map_cons, nodupStr, Bool.and_eq_true] at hx
    obtain ⟨hnc, htoprest⟩ := hx
    have hcon : (rest.map PyShelf.name).contains s.name = false := by
      cases hcc : (rest.map PyShelf.name).contains s.name with
      | false => rfl
      | true => rw [hcc] at hnc; exact absurd hnc (by simp)
    have hy := hall
    rw [nodupNamesL, Bool.and_eq_true] at hy
    obtain ⟨hnT, hallrest⟩ := hy
    have ihr := ihrest (fun t ht => hsub t (by simp [ht])) htoprest hallrest
    by_cases hps : deepFindNode s nid false = []
    · have hfl : findLoop (s :: rest) nid false = findLoop rest nid false := by
        rw [findLoop, if_neg (by rw [hps]; simp)]
      have hfem : (flattenShelf s).1.find? (fun c => c.node_id == nid) = none :=
        (deepFindNode_nil_iff s nid false).mp hps
      constructor
      · intro h
        rw [hfl] at h
        rw [flattenShelfList_fst, List.find?_append, hfem, Option.none_or]
        exact ihr.1 h
      · intro p tail h
        rw [hfl] at h
        obtain ⟨u, j, c, hwalk, hget, hfind⟩ := ihr.2 p tail h
        obtain ⟨t, ht, q, hqp⟩ := findLoop_false_head rest nid p tail h
        have htne : s.name ≠ t.name := by
          intro hcc
          have hmm : t.name ∈ rest.map PyShelf.name := List.mem_map.mpr ⟨t, ht, rfl⟩
          rw [← hcc] at hmm
          exact contains_false_not_mem _ _ hcon hmm
        refine ⟨u, j, c, ?_, hget, ?_⟩
        · rw [hqp] at hwalk ⊢
          rw [walkV_cons_ne s rest t.name q htne]
          exact hwalk
        · rw [flattenShelfList_fst, List.find?_append, hfem, Option.none_or]
          exact hfind
    · cases hdf : deepFindNode s nid false with
      | nil => exact absurd hdf hps
      | cons p0 ptail =>
        have hfl : findLoop (s :: rest) nid false = p0 :: ptail := by
          rw [findLoop, if_pos (by rw [hdf]; simp), if_neg (by simp), hdf]
        constructor
        · intro h
          rw [hfl] at h
          exact absurd h (by simp)
        · intro p tail h
          rw [hfl] at h
          injection h with hph htl
          by_cases hc : containsId s nid = true
          · have hdd : deepFindNode s nid false = [[s.name]] := by
              obtain ⟨o, n, d, ns, ss⟩ := s
              rw [deepFindNode, if_pos (And.intro hc rfl)]
              rfl
            have hcomb : [[s.name]] = p0 :: ptail := by rw [← hdd, hdf]
            injection hcomb with h1 h2
            have hp0 : p0 = [s.name] := h1.symm
            have hfind1 : (s :: rest).find? (fun v => v.name == s.name) = some s := by
              simp [List.find?_cons]
            have hwv : walkV (s :: rest) [s.name] = some s := by
              rw [walkV, hfind1]
            have hcontains : s.nodes.any (fun c => c.node_id == nid) = true := by
              rw [containsId] at hc
              exact hc
            have hfs : ∃ c, s.nodes.find? (fun c2 => c2.node_id == nid) = some c := by
              cases hfo : s.nodes.find? (fun c2 => c2.node_id == nid) with
              | some c => exact ⟨c, rfl⟩
              | none =>
                have han := (any_eq_false_iff_find?_none s.nodes nid).mpr hfo
                rw [han] at hcontains
                exact absurd hcontains (by simp)
            obtain ⟨c, hfs⟩ := hfs
            have hidx : ∃ j, findNodeIdx s.nodes nid 0 = some (j, c) := by
              have hmap := findNodeIdx_map_snd s.nodes nid 0
              rw [hfs] at hmap
              cases hio : findNodeIdx s.nodes nid 0 with
              | none => rw [hio] at hmap; simp at hmap
              | some jc =>
                obtain ⟨j2, c2⟩ := jc
                rw [hio] at hmap
                simp at hmap
                exact ⟨j2, by rw [hmap]⟩
            obtain ⟨j, hidx⟩ := hidx
            refine ⟨s, j, c, ?_, ?_, ?_⟩
            · rw [← hph, hp0]
              exact hwv
            · rw [getNodeInShelf, hidx]
            · rw [flattenShelfList_fst, List.find?_append, flattenShelf_fst2,
                List.find?_append, hfs]
              simp [Option.or]
          · have hcf : containsId s nid = false := by
              cases hcb : containsId s nid with
              | false => rfl
              | true => exact absurd hcb hc
            have hsubsEq : deepFindNode s nid false =
                deepFindSubs s.name s.subshelves nid false := by
              obtain ⟨o, n, d, ns, ss⟩ := s
              rw [deepFindNode, if_neg (fun hq => hc hq.1), if_neg hc,
                List.nil_append]
              rfl
            rw [hsubsEq] at hdf
            obtain ⟨q, qtail, hpq, hflsub⟩ :=
              deepFindSubs_false_decomp s.name s.subshelves nid p0 ptail hdf
            have hsubstmt := hsub s (by simp)
            rw [c3Stmt] at hsubstmt
            have hnsubs : nodupStr (s.subshelves.map PyShelf.name) = true ∧
                nodupNamesL s.subshelves = true := by
              obtain ⟨o, n, d, ns, ss⟩ := s
              rw [nodupNamesT, Bool.and_eq_true] at hnT
              exact hnT
            obtain ⟨u, j, c, hwalksub, hget, hfindsub⟩ :=
              (hsubstmt hnsubs.1 hnsubs.2).2 q qtail hflsub
            obtain ⟨t, ht, q2, hq2⟩ :=
              findLoop_false_head s.subshelves nid q qtail hflsub
            have hfind1 : (s :: rest).find? (fun v => v.name == s.name) = some s := by
              simp [List.find?_cons]
            have hwv : walkV (s :: rest) (s.name :: q) = walkV s.subshelves q := by
              rw [hq2, walkV, hfind1]
              intro hcn; exact absurd hcn (by simp)
            refine ⟨u, j, c, ?_, hget, ?_⟩
            · rw [← hph, hpq, hwv]
              exact hwalksub
            · rw [flattenShelfList_fst, List.find?_append, flattenShelf_fst2,
                List.find?_append]
              have hfns : s.nodes.find? (fun c2 => c2.node_id == nid) = none := by
                apply (any_eq_false_iff_find?_none _ _).mp
                rw [containsId] at hcf
                exact hcf
              rw [hfns, Option.none_or, hfindsub]
              simp [Option.or]

/-- The C3 forest statement holds for every forest. -/
theorem c3Main (nid : String) : ∀ vs : List PyShelf, c3Stmt nid vs :=
  pyForestSubInd (c3Stmt nid) (c3MainAux nid)

/-- C3, amended.  For every library whose runtime representation holds
no backing `Shelf` reference and whose sibling shelf names are
duplicate-free at every level (of the snapshot view), `get_node_by_id`
returns the first node class in depth-first shelf order (own nodes
before subshelves, shelves in registration order) whose `node_id`
matches, and raises `NodeClassNotFoundError` exactly when no shelf
contains such a node — i.e. it computes the first match of the
flattened (`flatten_shelves`) node list. -/
theorem c3_theorem : ∀ (g : GC) (lib : Library) (nid : String),
    noneBackedL lib._shelves = true →
    nodupStr ((viewL g lib._shelves).map PyShelf.name) = true →
    nodupNamesL (viewL g lib._shelves) = true →
    getNodeById g lib nid =
      match (flattenShelves (viewL g lib._shelves)).1.find?
          (fun c => c.node_id == nid) with
      | some c => Except.ok c
      | none => Except.error PyErr.nodeClassNotFound := by
  intro g lib nid hnb htop hall
  have hts := toShelfList_nb g lib._shelves hnb
  have hmain := c3Main nid (viewL g lib._shelves) htop hall
  have hfe : flattenShelves (viewL g lib._shelves) =
      flattenShelfList (viewL g lib._shelves) := rfl
  rw [hfe]
  simp only [getNodeById, findNodeid, hts, Bind.bind, Except.bind]
  cases hfl : findLoop (viewL g lib._shelves) nid false with
  | nil =>
    rw [hmain.1 hfl]
  | cons p tail =>
    obtain ⟨u, j, c, hwalk, hget, hfind⟩ := hmain.2 p tail hfl
    rw [hfind]
    have hgs : getShelfFromPath g lib p = .ok u := by
      have h2 := walkPath_nb g p lib._shelves hnb
      rw [hwalk] at h2
      exact h2
    simp only [hgs, hget, Bind.bind, Except.bind]

/-- Witness for C3 at a concrete library: one none-backed shelf "A"
holding the node class with id "x"; `get_node_by_id` returns it. -/
theorem c3_witness :
    getNodeById ⟨fun _ => true, fun _ => true⟩
      ⟨[.mk [⟨1, "x"⟩] [] "A" "" none]⟩ "x" = .ok ⟨1, "x"⟩ :=
  c3_theorem ⟨fun _ => true, fun _ => true⟩
    ⟨[.mk [⟨1, "x"⟩] [] "A" "" none]⟩ "x" rfl rfl rfl
